import Mathlib

/-!
Verification development for the `stream-schema` repository: a streaming JSON
parser (`src/parser.ts`), streaming tokenizer (`src/tokenizer.ts`) and JSON-Schema
draft-07 validator, shallowly embedded in Lean 4.

Modelling conventions:
* JS strings are modelled as `List Char`; all inputs used in the theorems are
  ASCII, so UTF-16 code-unit counts coincide with list length.
* JS numbers are modelled as exact rationals (`ℚ`).  No claim below depends on
  IEEE-754 rounding; `parseFloat` is modelled by `jsParseFloat`, which mirrors
  its prefix-parsing acceptance exactly and its value exactly on decimal input.
* JS `Set` (insertion ordered, deduplicating) is modelled by `List` with
  `setAdd` / `setDelete`; `Array.from` is the identity.
* JS exceptions (`throw` in `setError`) are modelled by an `exn` flag threaded
  through the parser: once set, the remaining statements of the aborted call
  chain are skipped, and `feed` returns no `ParseResult`.
* RegExp tests arising from schema `pattern` / `patternProperties` keywords are
  modelled by an arbitrary parameter `regexTest : List Char → List Char → Bool`
  (pattern, input); the theorems quantify over it, since no claim depends on
  the regex semantics itself.
* The validator's recursion (`validateValue`, `resolveRef`) is not structurally
  terminating in the source (cyclic `$ref` chains diverge), so those functions
  take an explicit fuel argument and return `none` exactly where the source
  would fail to terminate.
-/

set_option maxRecDepth 8000

namespace StreamSchema

/-- JSON runtime values (the `unknown` values flowing through the source).
JS object key order is preserved; keys are unique by construction
(`objInsert` mirrors JS property assignment). -/
inductive JsonValue where
  | null : JsonValue
  | bool (b : Bool) : JsonValue
  | num (q : ℚ) : JsonValue
  | str (s : List Char) : JsonValue
  | arr (items : List JsonValue) : JsonValue
  | obj (fields : List (List Char × JsonValue)) : JsonValue
deriving Repr

/-- JS property assignment `o[k] = v`: overwrite in place if the key exists,
append otherwise. -/
def objInsert : List (List Char × JsonValue) → List Char → JsonValue →
    List (List Char × JsonValue)
  | [], k, v => [(k, v)]
  | (k', v') :: rest, k, v =>
    if k' = k then (k, v) :: rest else (k', v') :: objInsert rest k v

/-- JS property read `o[k]` (keys are unique, first match). -/
def objLookup : List (List Char × JsonValue) → List Char → Option JsonValue
  | [], _ => none
  | (k', v') :: rest, k => if k' = k then some v' else objLookup rest k

/-- JS `Set.add`: append if not already present. -/
def setAdd (l : List (List Char)) (s : List Char) : List (List Char) :=
  if s ∈ l then l else l ++ [s]

/-- JS `Set.delete`: remove the element, preserving the order of the rest. -/
def setDelete (l : List (List Char)) (s : List Char) : List (List Char) :=
  l.filter (fun x => x ≠ s)

/-- Characters matched by the JS regex for whitespace (the ones that can occur
in this development; exotic Unicode space separators behave identically). -/
def isWS (c : Char) : Bool :=
  c = ' ' || c = '\t' || c = '\n' || c = '\r' || c = '\x0b' || c = '\x0c' ||
  c = '\xa0' || c = '﻿'

/-- Class `NUMBER_START` from `tokenizer.ts`: `-` or a digit. -/
def isNumberStart (c : Char) : Bool := c = '-' || c.isDigit

/-- Class `NUMBER_CHAR` from `tokenizer.ts`: sign, digit, dot or exponent letter. -/
def isNumberChar (c : Char) : Bool :=
  c = '-' || c = '+' || c.isDigit || c = '.' || c = 'e' || c = 'E'

/-- Class `UNQUOTED_KEY_CHAR` from `tokenizer.ts`: letter, digit, `_` or `$`. -/
def isUnquotedKeyChar (c : Char) : Bool :=
  c.isAlpha || c.isDigit || c = '_' || c = '$'

/-- Word characters (the keyword-termination check of `processKeyword`). -/
def isWordChar (c : Char) : Bool := c.isAlpha || c.isDigit || c = '_'

def digitsToNat (l : List Char) : Nat :=
  l.foldl (fun acc c => acc * 10 + (c.toNat - '0'.toNat)) 0

/-- JS `parseFloat`, restricted to the strings the tokenizer can hand it
(no leading whitespace, no `Infinity`): longest valid prefix of
sign, digits, optional fraction, optional exponent; `none` models `NaN`.
The numeric value is exact (see the module comment on ℚ vs IEEE-754). -/
def jsParseFloat (l : List Char) : Option ℚ :=
  let (sgn, rest) :=
    match l with
    | '-' :: r => ((-1 : ℚ), r)
    | '+' :: r => ((1 : ℚ), r)
    | r => ((1 : ℚ), r)
  let intDigits := rest.takeWhile Char.isDigit
  let rest₁ := rest.drop intDigits.length
  let fracDigits :=
    match rest₁ with
    | '.' :: r => r.takeWhile Char.isDigit
    | _ => []
  let rest₂ :=
    match rest₁ with
    | '.' :: _ => rest₁.drop (fracDigits.length + 1)
    | _ => rest₁
  if intDigits.isEmpty && fracDigits.isEmpty then none
  else
    let mantissa : ℚ :=
      (digitsToNat (intDigits ++ fracDigits) : ℚ) / ((10 : ℚ) ^ fracDigits.length)
    let expFactor : ℚ :=
      match rest₂ with
      | 'e' :: r | 'E' :: r =>
        let (esgn, er) :=
          match r with
          | '-' :: r' => ((-1 : Int), r')
          | '+' :: r' => ((1 : Int), r')
          | r' => ((1 : Int), r')
        let expDigits := er.takeWhile Char.isDigit
        if expDigits.isEmpty then 1
        else (10 : ℚ) ^ (esgn * (digitsToNat expDigits : Int))
      | _ => 1
    some (sgn * mantissa * expFactor)

/-- Enum `TokenType` from `types.ts`. -/
inductive TokenType where
  | objectStart | objectEnd | arrayStart | arrayEnd
  | string | number | boolean | null | colon | comma | key
  | partialString | partialNumber | partialKey
  | error
deriving DecidableEq, Repr

/-- Record `Token` from `types.ts`; the `unknown`-typed `value` is a
`JsonValue` (structural tokens carry `null`, error tokens carry their message
string). -/
structure Token where
  type : TokenType
  value : JsonValue
  raw : List Char
  position : Nat
  partialFlag : Bool
deriving Repr

/-- Merged `TokenizerOptions` as stored on the tokenizer instance. -/
structure TokOptions where
  allowTrailingCommas : Bool
  allowUnquotedKeys : Bool
  allowSingleQuotes : Bool
  llmMode : Bool
deriving Repr, DecidableEq

/-- Raw constructor input of `StreamingTokenizer` (all fields optional). -/
structure TokOptionsIn where
  allowTrailingCommas : Option Bool := none
  allowUnquotedKeys : Option Bool := none
  allowSingleQuotes : Option Bool := none
  llmMode : Option Bool := none
deriving Repr

/-- The nullish-coalescing chains of the `StreamingTokenizer` constructor:
`options.llmMode ?? options.allowX ?? false` for each lenient flag. -/
def mkTokOptions (o : TokOptionsIn) : TokOptions where
  allowTrailingCommas := o.llmMode.getD (o.allowTrailingCommas.getD false)
  allowUnquotedKeys := o.llmMode.getD (o.allowUnquotedKeys.getD false)
  allowSingleQuotes := o.llmMode.getD (o.allowSingleQuotes.getD false)
  llmMode := o.llmMode.getD false

/-- Record `TokenizerState` from `tokenizer.ts` (`escapeNext` and
`currentToken` are never read by the source; they are carried unchanged). -/
structure TokState where
  buffer : List Char
  position : Nat
  inString : Bool
  stringQuote : Option Char
  escapeNext : Bool
  currentToken : List Char
deriving Repr

def initialTokState : TokState :=
  { buffer := [], position := 0, inString := false, stringQuote := none,
    escapeNext := false, currentToken := [] }

/-- The `StreamingTokenizer` instance state. -/
structure Tokenizer where
  opts : TokOptions
  st : TokState
  toks : List Token
  expectingKey : Bool
deriving Repr

def mkTokenizer (o : TokOptionsIn) : Tokenizer :=
  { opts := mkTokOptions o, st := initialTokState, toks := [], expectingKey := false }

/-- Source `getEscapedChar`: only `n r t b f` change; every other character
(including `u`, the documented Unicode-escape limitation) maps to itself. -/
def getEscapedChar (c : Char) : Char :=
  if c = 'n' then '\n'
  else if c = 'r' then '\r'
  else if c = 't' then '\t'
  else if c = 'b' then '\x08'
  else if c = 'f' then '\x0c'
  else c

/-- Source `unescapeString`: a backslash followed by any character becomes the
escaped character; a trailing lone backslash is kept literally. -/
def unescapeChars : List Char → List Char
  | [] => []
  | '\\' :: c :: rest => getEscapedChar c :: unescapeChars rest
  | c :: rest => c :: unescapeChars rest

/-- String-body scanner for `processString`, starting after the opening quote.
Returns the decoded value and the count of characters consumed up to and
including the closing quote, or `none` when the buffer ends first. -/
def scanStr (q : Char) : List Char → Bool → Option (List Char × Nat)
  | [], _ => none
  | c :: rest, true =>
    match scanStr q rest false with
    | none => none
    | some (v, n) => some (getEscapedChar c :: v, n + 1)
  | c :: rest, false =>
    if c = '\\' then
      match scanStr q rest true with
      | none => none
      | some (v, n) => some (v, n + 1)
    else if c = q then some ([], 1)
    else
      match scanStr q rest false with
      | none => none
      | some (v, n) => some (c :: v, n + 1)

def mkTok (ty : TokenType) (v : JsonValue) (raw : List Char) (pos : Nat) : Token :=
  ⟨ty, v, raw, pos, false⟩

def pushToken (T : Tokenizer) (ty : TokenType) (v : JsonValue) (raw : List Char)
    (pos : Nat) : Tokenizer :=
  { T with toks := T.toks ++ [mkTok ty v raw pos] }

/-- Source `pushErrorToken`: records an error token whose `raw` is the single
buffer character at `pos`, and advances `position` by one (from its current
value, which matters for the `NaN`-number path). -/
def pushErrorToken (T : Tokenizer) (msg : List Char) (pos : Nat) : Tokenizer :=
  let raw := match T.st.buffer.get? pos with | some c => [c] | none => []
  let T := { T with toks := T.toks ++ [mkTok TokenType.error (JsonValue.str msg) raw pos] }
  { T with st := { T.st with position := T.st.position + 1 } }

/-- Source `processString`.  On success the token type is `Key` when
`expectingKey` is set (which then clears the hint); on an incomplete string the
position is reset to the opening quote and `inString` / `stringQuote` are
recorded (and, mirroring the source, never cleared again except by `reset`). -/
def processString (T : Tokenizer) (q : Char) : Tokenizer × Bool :=
  let startPos := T.st.position
  match scanStr q (T.st.buffer.drop (startPos + 1)) false with
  | some (v, consumed) =>
    let raw := q :: (T.st.buffer.drop (startPos + 1)).take consumed
    let ty := if T.expectingKey then TokenType.key else TokenType.string
    let T := { T with st := { T.st with position := startPos + 1 + consumed } }
    let T := pushToken T ty (JsonValue.str v) raw startPos
    let T := if ty = TokenType.key then { T with expectingKey := false } else T
    (T, true)
  | none =>
    let st' := { T.st with position := startPos, inString := true, stringQuote := some q }
    ({ T with st := st' }, false)

/-- Source `processNumber`.  The raw lexeme is the maximal run of
`NUMBER_CHAR`; it is retained (position reset) when it reaches the end of the
buffer or ends in an exponent/sign/dot character; a `NaN` parse yields an error
token (which, mirroring the source, additionally skips the terminator). -/
def processNumber (T : Tokenizer) : Tokenizer × Bool :=
  let startPos := T.st.position
  let raw := (T.st.buffer.drop startPos).takeWhile isNumberChar
  let newPos := startPos + raw.length
  if newPos ≥ T.st.buffer.length then
    (T, false)
  else
    match raw.getLast? with
    | some lc =>
      if lc = 'e' || lc = 'E' || lc = '.' || lc = '-' || lc = '+' then
        (T, false)
      else
        match jsParseFloat raw with
        | none =>
          let T := { T with st := { T.st with position := newPos } }
          (pushErrorToken T (("Invalid number: ".toList) ++ raw) startPos, true)
        | some q =>
          let T := { T with st := { T.st with position := newPos } }
          (pushToken T TokenType.number (JsonValue.num q) raw startPos, true)
    | none => (T, false)

def keywordTable : List (List Char × TokenType × JsonValue) :=
  [ ("true".toList, TokenType.boolean, JsonValue.bool true),
    ("false".toList, TokenType.boolean, JsonValue.bool false),
    ("null".toList, TokenType.null, JsonValue.null) ]

/-- First phase of `processKeyword`: try each keyword in order, skipping those
followed by a word character. -/
def tryKeywords (T : Tokenizer) :
    List (List Char × TokenType × JsonValue) → Option Tokenizer
  | [] => none
  | (kw, ty, v) :: rest =>
    let startPos := T.st.position
    if kw.isPrefixOf (T.st.buffer.drop startPos) then
      match T.st.buffer.get? (startPos + kw.length) with
      | some nc =>
        if isWordChar nc then tryKeywords T rest
        else
          let T := { T with st := { T.st with position := startPos + kw.length } }
          some (pushToken T ty v kw startPos)
      | none =>
        let T := { T with st := { T.st with position := startPos + kw.length } }
        some (pushToken T ty v kw startPos)
    else tryKeywords T rest

/-- Partial-keyword suspension check of `processKeyword`: the remaining buffer
is a strict prefix of some keyword. -/
def isPartialKeywordTail (rem : List Char) : Bool :=
  keywordTable.any fun kv =>
    rem.isPrefixOf kv.1 && decide (rem.length < kv.1.length)

/-- The case-insensitive partial-keyword regex of `getPartialToken`: a
non-empty (possibly complete) prefix of `true` / `false` / `null`. -/
def partialKeywordMatch (rem : List Char) : Bool :=
  let low := rem.map Char.toLower
  !low.isEmpty &&
    (low.isPrefixOf ("true".toList) || low.isPrefixOf ("false".toList) ||
     low.isPrefixOf ("null".toList))

def natToChars (n : Nat) : List Char := (toString n).toList

/-- Source `processUnquotedKey` (lenient mode): a maximal run of identifier
characters.  Note that in the source every non-empty run is emitted as a
complete key (the reset branch guarding the end of the buffer is dead code,
because an `undefined` next character is already treated as a terminator). -/
def processUnquotedKey (T : Tokenizer) : Tokenizer × Bool :=
  let startPos := T.st.position
  let kw := (T.st.buffer.drop startPos).takeWhile isUnquotedKeyChar
  if kw.length > 0 then
    let T := { T with st := { T.st with position := startPos + kw.length } }
    let T := pushToken T TokenType.key (JsonValue.str kw) kw startPos
    ({ T with expectingKey := false }, true)
  else (T, false)

/-- Source `processKeyword`: complete keyword, else partial-keyword suspension
near the buffer end, else (lenient) unquoted key, else an error token. -/
def processKeyword (T : Tokenizer) : Tokenizer × Bool :=
  match tryKeywords T keywordTable with
  | some T' => (T', true)
  | none =>
    let startPos := T.st.position
    if startPos + 4 ≥ T.st.buffer.length &&
        isPartialKeywordTail (T.st.buffer.drop startPos) then
      (T, false)
    else if T.opts.allowUnquotedKeys && T.expectingKey then
      processUnquotedKey T
    else
      (pushErrorToken T
        (("Invalid keyword at position ".toList) ++ natToChars startPos)
        startPos, true)

/-- Source `skipWhitespace`. -/
def skipWhitespace (T : Tokenizer) : Tokenizer :=
  let n := ((T.st.buffer.drop T.st.position).takeWhile isWS).length
  { T with st := { T.st with position := T.st.position + n } }

/-- Source `processNextToken`: one dispatch step of the tokenizer. -/
def processNextToken (T : Tokenizer) : Tokenizer × Bool :=
  let T := skipWhitespace T
  match T.st.buffer.get? T.st.position with
  | none => (T, false)
  | some c =>
    let startPos := T.st.position
    if c = '\x7b' then
      let T := { T with st := { T.st with position := startPos + 1 } }
      (pushToken { T with expectingKey := true } TokenType.objectStart JsonValue.null [c] startPos, true)
    else if c = '\x7d' then
      let T := { T with st := { T.st with position := startPos + 1 } }
      (pushToken { T with expectingKey := false } TokenType.objectEnd JsonValue.null [c] startPos, true)
    else if c = '[' then
      let T := { T with st := { T.st with position := startPos + 1 } }
      (pushToken { T with expectingKey := false } TokenType.arrayStart JsonValue.null [c] startPos, true)
    else if c = ']' then
      let T := { T with st := { T.st with position := startPos + 1 } }
      (pushToken { T with expectingKey := false } TokenType.arrayEnd JsonValue.null [c] startPos, true)
    else if c = ':' then
      let T := { T with st := { T.st with position := startPos + 1 } }
      (pushToken { T with expectingKey := false } TokenType.colon JsonValue.null [c] startPos, true)
    else if c = ',' then
      let T := { T with st := { T.st with position := startPos + 1 } }
      (pushToken T TokenType.comma JsonValue.null [c] startPos, true)
    else if c = '"' || c = '\'' then
      if c = '\'' && !T.opts.allowSingleQuotes then
        (pushErrorToken T (("Unexpected character: ".toList) ++ [c]) startPos, true)
      else processString T c
    else if isNumberStart c then
      processNumber T
    else if c = 't' || c = 'f' || c = 'n' then
      processKeyword T
    else if T.opts.allowUnquotedKeys && T.expectingKey && isUnquotedKeyChar c then
      processUnquotedKey T
    else if T.opts.llmMode then
      ({ T with st := { T.st with position := startPos + 1 } }, true)
    else
      (pushErrorToken T (("Unexpected character: ".toList) ++ [c]) startPos, true)

/-- The scanning loop of `StreamingTokenizer.feed`.  Every successful step
strictly advances `position`, so `buffer.length + 1` fuel never runs out. -/
def tokLoop : Nat → Tokenizer → Tokenizer
  | 0, T => T
  | n + 1, T =>
    if T.st.position < T.st.buffer.length then
      let (T', processed) := processNextToken T
      if processed then tokLoop n T' else T'
    else T

/-- Source `StreamingTokenizer.feed`: append the chunk, tokenize as far as
possible, trim the consumed prefix, and return the emitted tokens. -/
def tokFeed (T : Tokenizer) (chunk : List Char) : Tokenizer × List Token :=
  let T := { T with st := { T.st with buffer := T.st.buffer ++ chunk }, toks := [] }
  let T := tokLoop (T.st.buffer.length + 1) T
  let T :=
    if T.st.position > 0 then
      { T with st := { T.st with buffer := T.st.buffer.drop T.st.position, position := 0 } }
    else T
  (T, T.toks)

def trimChars (l : List Char) : List Char :=
  ((l.dropWhile isWS).reverse.dropWhile isWS).reverse

/-- Source `getPartialToken`: a non-destructive classification of the buffered
tail as a partial string/key/number/keyword. -/
def getPartialToken (T : Tokenizer) : Option Token :=
  let remaining := trimChars T.st.buffer
  if remaining.isEmpty then none
  else
    let startsWithQuote :=
      remaining.head? = some '"' ||
      (T.opts.allowSingleQuotes && remaining.head? = some '\'')
    if T.st.inString || startsWithQuote then
      let content := if startsWithQuote then remaining.tail else remaining
      some { type := if T.expectingKey then TokenType.partialKey else TokenType.partialString,
             value := JsonValue.str (unescapeChars content), raw := remaining,
             position := T.st.position, partialFlag := true }
    else if isNumberStart (remaining.headD ' ') then
      some { type := TokenType.partialNumber, value := JsonValue.str remaining,
             raw := remaining, position := T.st.position, partialFlag := true }
    else if partialKeywordMatch remaining then
      some { type := TokenType.partialString, value := JsonValue.str remaining,
             raw := remaining, position := T.st.position, partialFlag := true }
    else if T.opts.allowUnquotedKeys && T.expectingKey &&
        isUnquotedKeyChar (remaining.headD ' ') then
      some { type := TokenType.partialKey, value := JsonValue.str remaining,
             raw := remaining, position := T.st.position, partialFlag := true }
    else none

def setExpectingKeyTok (T : Tokenizer) (b : Bool) : Tokenizer :=
  { T with expectingKey := b }

/-! The JSON-Schema draft-07 model (`types.ts` `JSONSchema`) and the
`SchemaValidator` (source: the validator section of the repository). -/

/-- Enum `JSONSchemaType` from `types.ts`. -/
inductive SchemaType where
  | string | number | integer | boolean | object | array | null
deriving DecidableEq, Repr

/-- One layer of a JSON schema: every draft-07 keyword the source reads.
`defs` is `$defs` and `defns` is `definitions` (an absent record and an empty
record are indistinguishable to the source, which only merges them);
`ifS`/`thenS`/`elseS`/`notS` stand for the JS-keyword field names. -/
structure SchemaF (S : Type) where
  ref : Option (List Char) := none
  defs : List (List Char × S) := []
  defns : List (List Char × S) := []
  type : Option (SchemaType ⊕ List SchemaType) := none
  enum : Option (List JsonValue) := none
  const : Option JsonValue := none
  multipleOf : Option ℚ := none
  maximum : Option ℚ := none
  exclusiveMaximum : Option ℚ := none
  minimum : Option ℚ := none
  exclusiveMinimum : Option ℚ := none
  maxLength : Option Nat := none
  minLength : Option Nat := none
  pattern : Option (List Char) := none
  format : Option (List Char) := none
  items : Option (S ⊕ List S) := none
  additionalItems : Option (S ⊕ Bool) := none
  maxItems : Option Nat := none
  minItems : Option Nat := none
  uniqueItems : Option Bool := none
  contains : Option S := none
  maxProperties : Option Nat := none
  minProperties : Option Nat := none
  required : Option (List (List Char)) := none
  properties : Option (List (List Char × S)) := none
  patternProperties : Option (List (List Char × S)) := none
  additionalProperties : Option (S ⊕ Bool) := none
  propertyNames : Option S := none
  ifS : Option S := none
  thenS : Option S := none
  elseS : Option S := none
  allOf : Option (List S) := none
  anyOf : Option (List S) := none
  oneOf : Option (List S) := none
  notS : Option S := none

/-- Recursive schemas, tying the knot over `SchemaF`. -/
inductive Schema where
  | mk : SchemaF Schema → Schema

/-- Unfold one schema layer. -/
def Schema.un : Schema → SchemaF Schema
  | .mk f => f

/-- Record `ValidationError` from `types.ts`. -/
structure VError where
  path : List (List Char)
  message : List Char
  keyword : List Char
  schema : Schema
  value : Option JsonValue := none

def mkVErr (path : List (List Char)) (keyword message : List Char) (schema : Schema)
    (value : Option JsonValue := none) : VError :=
  { path := path, message := message, keyword := keyword, schema := schema, value := value }

/-- Record `ValidatorOptions` (defaults: `earlyReject` true, `allErrors` false). -/
structure VOptions where
  earlyReject : Bool := true
  allErrors : Bool := false

/-- The `SchemaValidator` instance: root schema, options, the definitions
table merged at construction time (`definitions` entries override `$defs`
entries of the same name, mirroring object spread), and the parametric
regex oracle (pattern, flags, input). -/
structure Validator where
  schema : Schema
  opts : VOptions
  defs : List (List Char × Schema)
  regexTest : List Char → List Char → List Char → Bool

def mkValidator (schema : Schema) (opts : VOptions)
    (regexTest : List Char → List Char → List Char → Bool) : Validator :=
  { schema := schema, opts := opts, defs := schema.un.defs ++ schema.un.defns,
    regexTest := regexTest }

/-- JS object-spread lookup: the last binding of a name wins. -/
def lookupLast (l : List (List Char × Schema)) (n : List Char) : Option Schema :=
  l.foldl (fun acc p => if p.1 = n then some p.2 else acc) none

/-- First-match lookup in a schema record (`properties` etc.; JS object keys
are unique). -/
def lookupFirst (l : List (List Char × Schema)) (n : List Char) : Option Schema :=
  match l.find? (fun p => p.1 = n) with
  | some p => some p.2
  | none => none

/-- One step of `resolveRef`: the argument of the recursive call, or `none`
when the source returns `schema` itself (no `$ref`, an empty/foreign pointer,
or an unknown definition name). -/
def refStep (V : Validator) (s : Schema) : Option Schema :=
  match s.un.ref with
  | none => none
  | some r =>
    if r.isEmpty then none
    else if ("#/$defs/".toList).isPrefixOf r || ("#/definitions/".toList).isPrefixOf r then
      let name := (r.splitOn '/').getLastD []
      if name.isEmpty then none else lookupLast V.defs name
    else none

/-- Source `resolveRef` with explicit fuel; `none` models divergence (a cyclic
`$ref` chain). -/
def resolveRefF (V : Validator) : Nat → Schema → Option Schema
  | 0, _ => none
  | n + 1, s =>
    match refStep V s with
    | none => some s
    | some d => resolveRefF V n d

/-- JS `parseInt(s, 10)`: optional sign then a digit prefix; `none` is `NaN`. -/
def parseIntJS (l : List Char) : Option Int :=
  let (sgn, rest) :=
    match l with
    | '-' :: r => ((-1 : Int), r)
    | '+' :: r => ((1 : Int), r)
    | r => ((1 : Int), r)
  let ds := rest.takeWhile Char.isDigit
  if ds.isEmpty then none else some (sgn * (digitsToNat ds : Int))

/-- Source `getSchemaAtPath` (the descent loop).  Outer `none` models
divergence of a `resolveRef` call; `some none` is the source returning
`undefined`. -/
def getSchemaAtPathGo (V : Validator) (fuel : Nat) :
    Schema → List (List Char) → Option (Option Schema)
  | current, [] =>
    match resolveRefF V fuel current with
    | none => none
    | some r => some (some r)
  | current, seg :: rest =>
    match resolveRefF V fuel current with
    | none => none
    | some cur =>
      match lookupFirst (cur.un.properties.getD []) seg with
      | some sub => getSchemaAtPathGo V fuel sub rest
      | none =>
        match cur.un.additionalProperties with
        | some (Sum.inl ap) => getSchemaAtPathGo V fuel ap rest
        | _ =>
          match cur.un.items with
          | some (Sum.inr tuple) =>
            match parseIntJS seg with
            | some i =>
              if h : 0 ≤ i ∧ i.toNat < tuple.length then
                getSchemaAtPathGo V fuel (tuple.get ⟨i.toNat, h.2⟩) rest
              else
                match cur.un.additionalItems with
                | some (Sum.inl ai) => getSchemaAtPathGo V fuel ai rest
                | _ => some none
            | none =>
              match cur.un.additionalItems with
              | some (Sum.inl ai) => getSchemaAtPathGo V fuel ai rest
              | _ => some none
          | some (Sum.inl uni) => getSchemaAtPathGo V fuel uni rest
          | none => some none

/-- Source `getSchemaAtPath`. -/
def getSchemaAtPathF (V : Validator) (fuel : Nat) (path : List (List Char)) :
    Option (Option Schema) :=
  getSchemaAtPathGo V fuel V.schema path

/-- Source `canBeType`: early type admissibility at a path. -/
def canBeTypeF (V : Validator) (fuel : Nat) (t : SchemaType) (path : List (List Char)) :
    Option Bool :=
  match getSchemaAtPathF V fuel path with
  | none => none
  | some none => some true
  | some (some sub) =>
    match resolveRefF V fuel sub with
    | none => none
    | some resolved =>
      match resolved.un.type with
      | none =>
        if resolved.un.properties.isSome || resolved.un.required.isSome then
          some (decide (t = SchemaType.object))
        else if resolved.un.items.isSome then
          some (decide (t = SchemaType.array))
        else some true
      | some (Sum.inr l) => some (l.contains t)
      | some (Sum.inl T) =>
        some (decide (T = SchemaType.integer ∧ t = SchemaType.number) || decide (T = t))

/-- Source `getRequiredFields`. -/
def getRequiredFieldsF (V : Validator) (fuel : Nat) (path : List (List Char)) :
    Option (List (List Char)) :=
  match getSchemaAtPathF V fuel path with
  | none => none
  | some none => some []
  | some (some s) => some (s.un.required.getD [])

/-- Source `isRequired`. -/
def isRequiredF (V : Validator) (fuel : Nat) (fieldName : List Char)
    (parentPath : List (List Char)) : Option Bool :=
  match getSchemaAtPathF V fuel parentPath with
  | none => none
  | some none => some false
  | some (some s) => some (((s.un.required.getD []).contains fieldName))

/-- Source `getJSONType` (the `undefined` case is unreachable: `JsonValue` has
no `undefined`). -/
def getJSONType : JsonValue → SchemaType
  | .null => SchemaType.null
  | .arr _ => SchemaType.array
  | .obj _ => SchemaType.object
  | .str _ => SchemaType.string
  | .num _ => SchemaType.number
  | .bool _ => SchemaType.boolean

def typeName : SchemaType → List Char
  | .string => "string".toList
  | .number => "number".toList
  | .integer => "integer".toList
  | .boolean => "boolean".toList
  | .object => "object".toList
  | .array => "array".toList
  | .null => "null".toList

/-- JS `typeof` on JSON values (`null`, arrays and objects are `'object'`). -/
def jsTypeof : JsonValue → List Char
  | .null | .arr _ | .obj _ => "object".toList
  | .num _ => "number".toList
  | .str _ => "string".toList
  | .bool _ => "boolean".toList

/-- JS `===` on the values compared by `deepEqual`: primitive equality; two
object/array references produced independently are never identical, so the
reference case is `false`. -/
def strictEq : JsonValue → JsonValue → Bool
  | .null, .null => true
  | .bool x, .bool y => x = y
  | .num x, .num y => x = y
  | .str x, .str y => x = y
  | _, _ => false

def isNullV : JsonValue → Bool
  | .null => true
  | _ => false

/-- Enumerable own entries, as `Object.keys` sees them (arrays expose their
indices as keys). -/
def entriesOf : JsonValue → List (List Char × JsonValue)
  | .obj fs => fs
  | .arr items => (items.enum).map (fun p => (natToChars p.1, p.2))
  | _ => []

/-- Source `deepEqual`, fuelled (any fuel beyond the nesting depth of the
first argument gives the source's answer; `deepEqualJs` below supplies it). -/
def deepEqualF : Nat → JsonValue → JsonValue → Bool
  | 0, _, _ => false
  | fuel + 1, a, b =>
    if strictEq a b then true
    else if jsTypeof a ≠ jsTypeof b then false
    else if isNullV a || isNullV b then false
    else
      match a, b with
      | .arr xs, .arr ys =>
        decide (xs.length = ys.length) &&
          (xs.zip ys).all (fun p => deepEqualF fuel p.1 p.2)
      | a, b =>
        if jsTypeof a = ("object".toList) then
          let afs := entriesOf a
          let bfs := entriesOf b
          decide (afs.length = bfs.length) &&
            afs.all (fun kv =>
              match objLookup bfs kv.1 with
              | some w => deepEqualF fuel kv.2 w
              | none => false)
        else false

mutual

def jsize : JsonValue → Nat
  | .null | .bool _ | .num _ | .str _ => 1
  | .arr xs => 1 + jsizeList xs
  | .obj fs => 1 + jsizeFields fs

def jsizeList : List JsonValue → Nat
  | [] => 0
  | x :: xs => 1 + jsize x + jsizeList xs

def jsizeFields : List (List Char × JsonValue) → Nat
  | [] => 0
  | kv :: fs => 1 + jsize kv.2 + jsizeFields fs

end

def deepEqualJs (a b : JsonValue) : Bool :=
  deepEqualF (jsize a + 1) a b

def ratToChars (q : ℚ) : List Char := (toString q).toList

/-- JSON.stringify, used by the source only to compare serialisations
(`uniqueItems`); the rendering here is injective in the same way, which is all
that equality of serialisations depends on. -/
def stringifyF : Nat → JsonValue → List Char
  | 0, _ => []
  | fuel + 1, v =>
    match v with
    | .null => "null".toList
    | .bool true => "true".toList
    | .bool false => "false".toList
    | .num q => ratToChars q
    | .str s => '"' :: s ++ ['"']
    | .arr xs => '[' :: List.intercalate (",".toList) (xs.map (stringifyF fuel)) ++ [']']
    | .obj fs =>
      '\x7b' ::
        List.intercalate (",".toList)
          (fs.map (fun kv => '"' :: kv.1 ++ ['"', ':'] ++ stringifyF fuel kv.2)) ++ ['\x7d']

def stringifyJs (v : JsonValue) : List Char := stringifyF (jsize v + 1) v

/-- JS `%` (remainder with the dividend's sign); `b = 0` would give `NaN`,
which the single use site (`multipleOf`) treats as a failed check, handled
there. -/
def jsRemQ (a b : ℚ) : ℚ :=
  a - b * ((if a / b ≥ 0 then ⌊a / b⌋ else ⌈a / b⌉ : ℤ) : ℚ)

/-- JS `Number.isInteger`. -/
def isIntegerQ (q : ℚ) : Bool := q.den = 1

/-- Short-circuiting `Array.prototype.some` whose predicate may diverge. -/
def anyMOpt (f : α → Option Bool) : List α → Option Bool
  | [] => some false
  | x :: rest =>
    match f x with
    | none => none
    | some true => some true
    | some false => anyMOpt f rest

/-- The regex-literal table of `validateFormat` (pattern, flags). -/
def formatTable : List (List Char × List Char × List Char) :=
  [ ("date-time".toList,
     ("^\\d\x7b4\x7d-\\d\x7b2\x7d-\\d\x7b2\x7dT\\d\x7b2\x7d:\\d\x7b2\x7d:\\d\x7b2\x7d(\\.\\d+)?(Z|[+-]\\d\x7b2\x7d:\\d\x7b2\x7d)$".toList),
     "".toList),
    ("date".toList, ("^\\d\x7b4\x7d-\\d\x7b2\x7d-\\d\x7b2\x7d$".toList), "".toList),
    ("time".toList,
     ("^\\d\x7b2\x7d:\\d\x7b2\x7d:\\d\x7b2\x7d(\\.\\d+)?(Z|[+-]\\d\x7b2\x7d:\\d\x7b2\x7d)?$".toList),
     "".toList),
    ("email".toList, ("^[^\\s@]+@[^\\s@]+\\.[^\\s@]+$".toList), "".toList),
    ("uri".toList, ("^[a-zA-Z][a-zA-Z0-9+.-]*:".toList), "".toList),
    ("uuid".toList,
     ("^[0-9a-f]\x7b8\x7d-[0-9a-f]\x7b4\x7d-[0-9a-f]\x7b4\x7d-[0-9a-f]\x7b4\x7d-[0-9a-f]\x7b12\x7d$".toList),
     "i".toList),
    ("ipv4".toList, ("^(\\d\x7b1,3\x7d\\.)\x7b3\x7d\\d\x7b1,3\x7d$".toList), "".toList),
    ("ipv6".toList, ("^([0-9a-f]\x7b1,4\x7d:)\x7b7\x7d[0-9a-f]\x7b1,4\x7d$".toList), "i".toList) ]

/-- Source `validateFormat`: unrecognized formats pass silently. -/
def validateFormat (V : Validator) (value fmt : List Char) : Option (List Char) :=
  match formatTable.find? (fun e => e.1 = fmt) with
  | some e =>
    if V.regexTest e.2.1 e.2.2 value then none
    else some (("Invalid ".toList) ++ fmt ++ (" format".toList))
  | none => none

/-- Source `validateString` (pure: no recursion). -/
def validateStringF (V : Validator) (s : List Char) (schema : Schema)
    (path : List (List Char)) (ctxSchema : Schema) : List VError :=
  (match schema.un.minLength with
   | some n =>
     if s.length < n then
       [mkVErr path ("minLength".toList)
         (("String must be at least ".toList) ++ natToChars n ++ (" characters".toList))
         ctxSchema (some (JsonValue.str s))]
     else []
   | none => []) ++
  (match schema.un.maxLength with
   | some n =>
     if s.length > n then
       [mkVErr path ("maxLength".toList)
         (("String must be at most ".toList) ++ natToChars n ++ (" characters".toList))
         ctxSchema (some (JsonValue.str s))]
     else []
   | none => []) ++
  (match schema.un.pattern with
   | some pat =>
     if !V.regexTest pat [] s then
       [mkVErr path ("pattern".toList)
         (("String must match pattern: ".toList) ++ pat) ctxSchema (some (JsonValue.str s))]
     else []
   | none => []) ++
  (match schema.un.format with
   | some fmt =>
     match validateFormat V s fmt with
     | some msg => [mkVErr path ("format".toList) msg ctxSchema (some (JsonValue.str s))]
     | none => []
   | none => [])

/-- Source `validateNumber` (pure). -/
def validateNumberF (q : ℚ) (schema : Schema) (path : List (List Char))
    (ctxSchema : Schema) : List VError :=
  (match schema.un.minimum with
   | some m =>
     if q < m then
       [mkVErr path ("minimum".toList) (("Value must be >= ".toList) ++ ratToChars m)
         ctxSchema (some (JsonValue.num q))]
     else []
   | none => []) ++
  (match schema.un.maximum with
   | some m =>
     if q > m then
       [mkVErr path ("maximum".toList) (("Value must be <= ".toList) ++ ratToChars m)
         ctxSchema (some (JsonValue.num q))]
     else []
   | none => []) ++
  (match schema.un.exclusiveMinimum with
   | some m =>
     if q ≤ m then
       [mkVErr path ("exclusiveMinimum".toList) (("Value must be > ".toList) ++ ratToChars m)
         ctxSchema (some (JsonValue.num q))]
     else []
   | none => []) ++
  (match schema.un.exclusiveMaximum with
   | some m =>
     if q ≥ m then
       [mkVErr path ("exclusiveMaximum".toList) (("Value must be < ".toList) ++ ratToChars m)
         ctxSchema (some (JsonValue.num q))]
     else []
   | none => []) ++
  (match schema.un.multipleOf with
   | some m =>
     if (if m = 0 then true else jsRemQ q m ≠ 0) then
       [mkVErr path ("multipleOf".toList)
         (("Value must be a multiple of ".toList) ++ ratToChars m)
         ctxSchema (some (JsonValue.num q))]
     else []
   | none => [])

/-- Source `validateType` (runs only when the schema has a `type` keyword). -/
def validateTypeF (value : JsonValue) (τ : SchemaType ⊕ List SchemaType)
    (path : List (List Char)) (ctxSchema : Schema) : List VError :=
  let types := match τ with | Sum.inl T => [T] | Sum.inr l => l
  let actual := getJSONType value
  if types.any (fun T =>
      decide (T = actual) ||
      (decide (T = SchemaType.integer ∧ actual = SchemaType.number) &&
        (match value with | .num q => isIntegerQ q | _ => false))) then
    []
  else
    [mkVErr path ("type".toList)
      (("Expected ".toList) ++ (List.intercalate (" or ".toList) (types.map typeName)) ++
        (", got ".toList) ++ typeName actual)
      ctxSchema (some value)]

/-- Source `validateArray`; `recv` is the recursive entry into
`validateValue` at the remaining fuel. -/
def validateArrayF (V : Validator)
    (recv : JsonValue → List (List Char) → Schema → Option (List VError))
    (xs : List JsonValue)
    (schema : Schema) (path : List (List Char)) (ctxSchema : Schema) :
    Option (List VError) := do
  let minE :=
    match schema.un.minItems with
    | some n =>
      if xs.length < n then
        [mkVErr path ("minItems".toList)
          (("Array must have at least ".toList) ++ natToChars n ++ (" items".toList))
          ctxSchema (some (JsonValue.arr xs))]
      else []
    | none => []
  let maxE :=
    match schema.un.maxItems with
    | some n =>
      if xs.length > n then
        [mkVErr path ("maxItems".toList)
          (("Array must have at most ".toList) ++ natToChars n ++ (" items".toList))
          ctxSchema (some (JsonValue.arr xs))]
      else []
    | none => []
  let uniqE :=
    match schema.un.uniqueItems with
    | some true =>
      if (xs.map stringifyJs).dedup.length ≠ xs.length then
        [mkVErr path ("uniqueItems".toList) ("Array items must be unique".toList)
          ctxSchema (some (JsonValue.arr xs))]
      else []
    | _ => []
  let itemsE ←
    match schema.un.items with
    | none => pure []
    | some (Sum.inl uni) =>
      (xs.enum.mapM (fun p =>
        recv p.2 (path ++ [natToChars p.1]) uni)).map List.flatten
    | some (Sum.inr tuple) =>
      (xs.enum.mapM (fun (p : Nat × JsonValue) =>
        match (match tuple.get? p.1 with
               | some s => some s
               | none =>
                 match schema.un.additionalItems with
                 | some (Sum.inl ai) => some ai
                 | _ => none) with
        | some isch => recv p.2 (path ++ [natToChars p.1]) isch
        | none =>
          match schema.un.additionalItems with
          | some (Sum.inr false) =>
            if p.1 ≥ tuple.length then
              pure [mkVErr path ("additionalItems".toList)
                (("No additional items allowed at index ".toList) ++ natToChars p.1)
                ctxSchema (some p.2)]
            else pure []
          | _ => pure [])).map List.flatten
  let containsE ←
    match schema.un.contains with
    | none => pure []
    | some sc => do
      let ok ← anyMOpt (fun item => (recv item path sc).map List.isEmpty) xs
      pure (if ok then [] else
        [mkVErr path ("contains".toList)
          ("Array must contain at least one matching item".toList) ctxSchema])
  pure (minE ++ maxE ++ uniqE ++ itemsE ++ containsE)

/-- Source `validateObject`; `recv` is the recursive entry into
`validateValue` at the remaining fuel. -/
def validateObjectF (V : Validator)
    (recv : JsonValue → List (List Char) → Schema → Option (List VError))
    (fs : List (List Char × JsonValue))
    (schema : Schema) (path : List (List Char)) (ctxSchema : Schema) :
    Option (List VError) := do
  let keys := fs.map Prod.fst
  let minE :=
    match schema.un.minProperties with
    | some n =>
      if keys.length < n then
        [mkVErr path ("minProperties".toList)
          (("Object must have at least ".toList) ++ natToChars n ++ (" properties".toList))
          ctxSchema]
      else []
    | none => []
  let maxE :=
    match schema.un.maxProperties with
    | some n =>
      if keys.length > n then
        [mkVErr path ("maxProperties".toList)
          (("Object must have at most ".toList) ++ natToChars n ++ (" properties".toList))
          ctxSchema]
      else []
    | none => []
  let reqE :=
    match schema.un.required with
    | some rs =>
      rs.foldl (fun acc r =>
        if keys.contains r then acc
        else acc ++ [mkVErr path ("required".toList)
          (("Missing required property: ".toList) ++ r) ctxSchema]) []
    | none => []
  let pRes ←
    match schema.un.properties with
    | none => pure (([] : List (List Char)), ([] : List VError))
    | some entries =>
      entries.foldlM (fun acc kv =>
        match objLookup fs kv.1 with
        | some v => do
          let es ← recv v (path ++ [kv.1]) kv.2
          pure (setAdd acc.1 kv.1, acc.2 ++ es)
        | none => pure acc) (([] : List (List Char)), ([] : List VError))
  let ppRes ←
    match schema.un.patternProperties with
    | none => pure pRes
    | some entries =>
      entries.foldlM (fun acc pe =>
        keys.foldlM (fun acc2 key =>
          if V.regexTest pe.1 [] key then do
            let es ← recv ((objLookup fs key).getD JsonValue.null)
              (path ++ [key]) pe.2
            pure (setAdd acc2.1 key, acc2.2 ++ es)
          else pure acc2) acc) pRes
  let additionalKeys := keys.filter (fun k => !ppRes.1.contains k)
  let addE ←
    if additionalKeys.length > 0 then
      match schema.un.additionalProperties with
      | some (Sum.inr false) =>
        pure (additionalKeys.map (fun k =>
          mkVErr path ("additionalProperties".toList)
            (("Additional property not allowed: ".toList) ++ k) ctxSchema))
      | some (Sum.inl aps) =>
        (additionalKeys.mapM (fun k =>
          recv ((objLookup fs k).getD JsonValue.null)
            (path ++ [k]) aps)).map List.flatten
      | _ => pure []
    else pure []
  let pnE ←
    match schema.un.propertyNames with
    | none => pure []
    | some pns =>
      (keys.mapM (fun k => do
        let nameErrors ← recv (JsonValue.str k) path pns
        pure (if nameErrors.isEmpty then ([] : List VError)
          else [mkVErr path ("propertyNames".toList)
            (("Invalid property name: ".toList) ++ k) ctxSchema]))).map List.flatten
  pure (minE ++ maxE ++ reqE ++ ppRes.2 ++ addE ++ pnE)

/-- Source `validateValue`.  Fuel decreases on every recursive validation and
bounds the `resolveRef` budget; `none` models divergence of the source. -/
def validateValueF (V : Validator) : Nat → JsonValue → List (List Char) → Schema →
    Option (List VError)
  | 0, _, _, _ => none
  | f + 1, value, path, ctxSchema =>
    match resolveRefF V (f + 1) ctxSchema with
    | none => none
    | some schema =>
      let typeErrors :=
        match schema.un.type with
        | none => []
        | some τ => validateTypeF value τ path ctxSchema
      if typeErrors.length > 0 && V.opts.earlyReject then some typeErrors
      else do
        let constErrors :=
          match schema.un.const with
          | some c =>
            if !deepEqualJs value c then
              [mkVErr path ("const".toList)
                (("Value must be ".toList) ++ stringifyJs c) ctxSchema]
            else []
          | none => []
        let enumErrors :=
          match schema.un.enum with
          | some es =>
            if !es.any (fun e => deepEqualJs value e) then
              [mkVErr path ("enum".toList)
                (("Value must be one of: ".toList) ++
                  List.intercalate (", ".toList) (es.map stringifyJs)) ctxSchema]
            else []
          | none => []
        let kindErrors ←
          (match value with
          | .str s => pure (validateStringF V s schema path ctxSchema)
          | .num q => pure (validateNumberF q schema path ctxSchema)
          | .arr xs =>
            validateArrayF V (fun v p s => validateValueF V f v p s) xs schema path ctxSchema
          | .obj fs =>
            validateObjectF V (fun v p s => validateValueF V f v p s) fs schema path ctxSchema
          | _ => pure [])
        let allOfErrors ←
          (match schema.un.allOf with
          | none => pure []
          | some subs =>
            (subs.mapM (fun sub => validateValueF V f value path sub)).map List.flatten)
        let anyOfErrors ←
          (match schema.un.anyOf with
          | none => pure []
          | some subs => do
            let ok ← anyMOpt (fun sub => (validateValueF V f value path sub).map List.isEmpty) subs
            pure (if ok then [] else
              [mkVErr path ("anyOf".toList)
                ("Value must match at least one schema in anyOf".toList) ctxSchema]))
        let oneOfErrors ←
          (match schema.un.oneOf with
          | none => pure []
          | some subs => do
            let results ← subs.mapM (fun sub => validateValueF V f value path sub)
            let validCount := (results.filter List.isEmpty).length
            pure (if validCount = 1 then [] else
              [mkVErr path ("oneOf".toList)
                (("Value must match exactly one schema in oneOf (matched ".toList) ++
                  natToChars validCount ++ (")".toList)) ctxSchema]))
        let notErrors ←
          (match schema.un.notS with
          | none => pure []
          | some sn => do
            let es ← validateValueF V f value path sn
            pure (if es.isEmpty then
              [mkVErr path ("not".toList)
                ("Value must not match schema in not".toList) ctxSchema]
              else []))
        let condErrors ←
          (match schema.un.ifS with
          | none => pure []
          | some si => do
            let ie ← validateValueF V f value path si
            if ie.isEmpty then
              match schema.un.thenS with
              | some st => validateValueF V f value path st
              | none => pure []
            else
              match schema.un.elseS with
              | some se => validateValueF V f value path se
              | none => pure [])
        pure (typeErrors ++ constErrors ++ enumErrors ++ kindErrors ++ allOfErrors ++
          anyOfErrors ++ oneOfErrors ++ notErrors ++ condErrors)

/-- Source `validate`: resolve the schema at the path (accepting everything
when there is none) and run `validateValue`. -/
def validateF (V : Validator) (fuel : Nat) (value : JsonValue)
    (path : List (List Char)) : Option (List VError) :=
  if path.length > 0 then
    match getSchemaAtPathF V fuel path with
    | none => none
    | some none => some []
    | some (some s) => validateValueF V fuel value path s
  else validateValueF V fuel value path V.schema

/-! The streaming parser (`src/parser.ts`). -/

/-- Enum `ParserState` from `types.ts`. -/
inductive PState where
  | initial | inObject | inArray | expectingKey | expectingColon
  | expectingValue | expectingCommaOrEnd | complete | error
deriving DecidableEq, Repr

/-- The `data` of a stack frame; the constructor plays the role of the
source's `type : 'object' | 'array'` discriminator (the two are set together
at frame creation and never diverge). -/
inductive FrameData where
  | obj (fields : List (List Char × JsonValue))
  | arr (items : List JsonValue)
deriving Repr

def frameValue : FrameData → JsonValue
  | .obj fs => JsonValue.obj fs
  | .arr xs => JsonValue.arr xs

/-- Record `StackFrame` from `types.ts`. -/
structure Frame where
  data : FrameData
  currentKey : Option (List Char) := none
  schema : Option Schema := none
  completedKeys : List (List Char) := []
  arrayIndex : Nat := 0

/-- JS truthiness of `frame.currentKey` (an empty-string key is falsy). -/
def ckTruthy : Option (List Char) → Bool
  | some k => !k.isEmpty
  | none => false

/-- Record `ParserOptions` from `types.ts` (user-facing, all optional). -/
structure ParserOptionsIn where
  schema : Option Schema := none
  llmMode : Option Bool := none
  allowTrailingCommas : Option Bool := none
  allowUnquotedKeys : Option Bool := none
  allowSingleQuotes : Option Bool := none
  maxDepth : Option Nat := none

/-- The merged `this.options` of the parser constructor (defaults spread
under the user's options). -/
structure POptions where
  schema : Option Schema
  llmMode : Bool
  allowTrailingCommas : Bool
  allowUnquotedKeys : Bool
  allowSingleQuotes : Bool
  maxDepth : Nat

def mergeOptions (o : ParserOptionsIn) : POptions where
  schema := o.schema
  llmMode := o.llmMode.getD false
  allowTrailingCommas := o.allowTrailingCommas.getD false
  allowUnquotedKeys := o.allowUnquotedKeys.getD false
  allowSingleQuotes := o.allowSingleQuotes.getD false
  maxDepth := o.maxDepth.getD 100

/-- Record `ParseResult` from `types.ts` (`data` is `none` where the source
yields `undefined`). -/
structure ParseResult where
  complete : Bool
  valid : Bool
  data : Option JsonValue
  completedFields : List (List Char)
  pendingFields : List (List Char)
  errors : List VError
  depth : Nat
  bytesProcessed : Nat

/-- The `StreamingJSONParser` instance.  `regexTest` is the regex oracle
passed to the validator; `vfuel` bounds the validator's recursion (the source
diverges where any bound is exceeded for every `vfuel`; no theorem depends on
the value).  `exn` models a JS exception in flight (see the module comment). -/
structure Parser where
  opts : POptions
  regexTest : List Char → List Char → List Char → Bool
  vfuel : Nat
  tok : Tokenizer
  state : PState
  stack : List Frame
  result : Option JsonValue
  errors : List VError
  bytesProcessed : Nat
  completedPaths : List (List Char)
  pendingPaths : List (List Char)
  exn : Bool

/-- The `this.validator` field: present exactly when a schema was supplied
(the validator itself is immutable, so it is recomputed on demand). -/
def Parser.validator (p : Parser) : Option Validator :=
  p.opts.schema.map (fun s => mkValidator s {} p.regexTest)

/-- The `StreamingJSONParser` constructor. -/
def mkParser (o : ParserOptionsIn)
    (regexTest : List Char → List Char → List Char → Bool) (vfuel : Nat) : Parser :=
  let merged := mergeOptions o
  { opts := merged, regexTest := regexTest, vfuel := vfuel,
    tok := mkTokenizer
      { llmMode := some merged.llmMode,
        allowTrailingCommas := some merged.allowTrailingCommas,
        allowUnquotedKeys := some merged.allowUnquotedKeys,
        allowSingleQuotes := some merged.allowSingleQuotes },
    state := PState.initial, stack := [], result := none, errors := [],
    bytesProcessed := 0, completedPaths := [], pendingPaths := [], exn := false }

def emptySchema : Schema := Schema.mk {}

/-- Source `getCurrentPath`: walk the stack from the bottom; an object frame
contributes its (truthy) `currentKey` unless it is the top frame and
`includeCurrentKey` is false; an array frame always contributes its
`arrayIndex`. -/
def getCurrentPath (stack : List Frame) (includeCurrentKey : Bool := false) :
    List (List Char) :=
  (stack.enum).foldl (fun path pr =>
    let isLast := pr.1 = stack.length - 1
    match pr.2.data with
    | FrameData.obj _ =>
      if ckTruthy pr.2.currentKey then
        if !isLast || includeCurrentKey then path ++ [(pr.2.currentKey).getD []] else path
      else path
    | FrameData.arr _ => path ++ [natToChars pr.2.arrayIndex]) []

def joinPath (path : List (List Char)) : List Char :=
  List.intercalate (".".toList) path

/-- The string values of the `TokenType` enum (used in error messages). -/
def tokenTypeName : TokenType → List Char
  | .objectStart => "OBJECT_START".toList
  | .objectEnd => "OBJECT_END".toList
  | .arrayStart => "ARRAY_START".toList
  | .arrayEnd => "ARRAY_END".toList
  | .string => "STRING".toList
  | .number => "NUMBER".toList
  | .boolean => "BOOLEAN".toList
  | .null => "NULL".toList
  | .colon => "COLON".toList
  | .comma => "COMMA".toList
  | .key => "KEY".toList
  | .partialString => "PARTIAL_STRING".toList
  | .partialNumber => "PARTIAL_NUMBER".toList
  | .partialKey => "PARTIAL_KEY".toList
  | .error => "ERROR".toList

/-- JS `String(x)` on token values (only `.str` is reachable: error tokens). -/
def jsStringOf : JsonValue → List Char
  | .str s => s
  | .null => "null".toList
  | .bool true => "true".toList
  | .bool false => "false".toList
  | .num q => ratToChars q
  | v => stringifyJs v

/-- Source `setError`: enter the Error state; in strict mode the constructed
`Error` is thrown (modelled by `exn`), in lenient mode execution continues in
the caller. -/
def setError (p : Parser) (_msg : List Char) : Parser :=
  let p := { p with state := PState.error }
  if !p.opts.llmMode then { p with exn := true } else p

/-- Source (parser) `validateValue`: run the validator, if any, and append its
errors.  A diverging validator call (impossible at the inputs used in the
theorems) is modelled as contributing nothing; in the source the whole `feed`
would fail to return. -/
def pValidate (p : Parser) (value : JsonValue) (path : List (List Char)) : Parser :=
  match p.validator with
  | none => p
  | some V =>
    match validateF V p.vfuel value path with
    | some errs => { p with errors := p.errors ++ errs }
    | none => p

/-- Replace the top stack frame (the source mutates it in place). -/
def modifyLast (stack : List Frame) (f : Frame → Frame) : List Frame :=
  match stack.getLast? with
  | none => stack
  | some fr => stack.dropLast ++ [f fr]

/-- Replace the parser's stack. -/
def withStack (p : Parser) (s : List Frame) : Parser := { p with stack := s }

/-- The `pop` of the close protocol. -/
def popFrame (p : Parser) : Parser := { p with stack := p.stack.dropLast }

/-- The adjacent pair `completedPaths.add(pathStr); pendingPaths.delete(pathStr)`
of the close protocol and of `setValue` / `pushArrayValue`. -/
def markCompleted (p : Parser) (pathStr : List Char) : Parser :=
  { p with completedPaths := setAdd p.completedPaths pathStr,
           pendingPaths := setDelete p.pendingPaths pathStr }

/-- The cached schema-at-path of `startObject` / `startArray` (a diverging
validator lookup is modelled as yielding no cached schema; in the source,
`feed` would simply not return). -/
def cachedSchemaAt (p : Parser) (path : List (List Char)) : Option Schema :=
  match p.validator with
  | some V => (getSchemaAtPathF V p.vfuel path).getD none
  | none => none

/-- The early `canBeType` rejection block shared by `startObject` and
`startArray`: a mismatch is reported immediately as a validation error but
does not abort parsing. -/
def earlyTypeCheck (p : Parser) (t : SchemaType) (msg : List Char)
    (path : List (List Char)) (schema : Option Schema) : Parser :=
  match p.validator with
  | some V =>
    match canBeTypeF V p.vfuel t path with
    | some false =>
      { p with errors := p.errors ++
          [mkVErr path ("type".toList) msg (schema.getD emptySchema) none] }
    | _ => p
  | none => p

/-- Source `startObject`: depth guard, cached schema-at-path, early
`canBeType` rejection, push, mark container path pending. -/
def startObject (p : Parser) : Parser :=
  if p.stack.length ≥ p.opts.maxDepth then
    setError p ("Maximum depth exceeded".toList)
  else
    let path := getCurrentPath p.stack
    let schema := cachedSchemaAt p path
    let p := earlyTypeCheck p SchemaType.object
      ("Expected different type, got object".toList) path schema
    let frame : Frame :=
      { data := FrameData.obj [], currentKey := none, schema := schema,
        completedKeys := [], arrayIndex := 0 }
    { p with stack := p.stack ++ [frame],
             pendingPaths := setAdd p.pendingPaths (joinPath path) }

/-- Source `startArray`. -/
def startArray (p : Parser) : Parser :=
  if p.stack.length ≥ p.opts.maxDepth then
    setError p ("Maximum depth exceeded".toList)
  else
    let path := getCurrentPath p.stack
    let schema := cachedSchemaAt p path
    let p := earlyTypeCheck p SchemaType.array
      ("Expected different type, got array".toList) path schema
    let frame : Frame :=
      { data := FrameData.arr [], currentKey := none, schema := schema,
        completedKeys := [], arrayIndex := 0 }
    { p with stack := p.stack ++ [frame],
             pendingPaths := setAdd p.pendingPaths (joinPath path) }

/-- Source `assignValue`: attach a popped container value to the parent frame
(or make it the root); note that, unlike `setValue`, it adds the key path to
`completedPaths` without deleting it from `pendingPaths`. -/
def assignValue (p : Parser) (value : JsonValue) : Parser :=
  match p.stack.getLast? with
  | none => { p with result := some value }
  | some frame =>
    match frame.data with
    | FrameData.obj fields =>
      if ckTruthy frame.currentKey then
        let ck := frame.currentKey.getD []
        let path := getCurrentPath p.stack ++ [ck]
        let newFrame :=
          { frame with
            data := FrameData.obj (objInsert fields ck value),
            completedKeys := setAdd frame.completedKeys ck,
            currentKey := none }
        let p := withStack p (modifyLast p.stack (fun _ => newFrame))
        { p with completedPaths := setAdd p.completedPaths (joinPath path) }
      else setError p ("No current key for value".toList)
    | FrameData.arr items =>
      let newFrame :=
        { frame with
          data := FrameData.arr (items ++ [value]),
          arrayIndex := frame.arrayIndex + 1 }
      withStack p (modifyLast p.stack (fun _ => newFrame))

/-- Source `endObject`: pop (even on mismatch), compute the path of the
remaining stack, mark completed, validate, assign to parent, update state.
In lenient mode a `setError` inside `assignValue` is overwritten by the state
update, mirroring the source's fall-through. -/
def endObject (p : Parser) : Parser :=
  match p.stack.getLast? with
  | none => setError p (("Mismatched ".toList) ++ ['\x7d'])
  | some frame =>
    let p := popFrame p
    match frame.data with
    | FrameData.arr _ => setError p (("Mismatched ".toList) ++ ['\x7d'])
    | FrameData.obj fields =>
      let path := getCurrentPath p.stack
      let p := markCompleted p (joinPath path)
      let p := pValidate p (JsonValue.obj fields) path
      let p := assignValue p (JsonValue.obj fields)
      if p.exn then p
      else if p.stack.isEmpty then { p with state := PState.complete }
      else { p with state := PState.expectingCommaOrEnd }

/-- Source `endArray`. -/
def endArray (p : Parser) : Parser :=
  match p.stack.getLast? with
  | none => setError p ("Mismatched ]".toList)
  | some frame =>
    let p := popFrame p
    match frame.data with
    | FrameData.obj _ => setError p ("Mismatched ]".toList)
    | FrameData.arr items =>
      let path := getCurrentPath p.stack
      let p := markCompleted p (joinPath path)
      let p := pValidate p (JsonValue.arr items) path
      let p := assignValue p (JsonValue.arr items)
      if p.exn then p
      else if p.stack.isEmpty then { p with state := PState.complete }
      else { p with state := PState.expectingCommaOrEnd }

/-- Source `pushArrayValue`. -/
def pushArrayValue (p : Parser) (value : JsonValue) : Parser :=
  match p.stack.getLast? with
  | none => setError p ("Not in array".toList)
  | some frame =>
    match frame.data with
    | FrameData.obj _ => setError p ("Not in array".toList)
    | FrameData.arr items =>
      let path := getCurrentPath p.stack ++ [natToChars frame.arrayIndex]
      let pathStr := joinPath path
      let p := withStack p (modifyLast p.stack
        (fun fr => { fr with data := FrameData.arr (items ++ [value]) }))
      let p := markCompleted p pathStr
      let p := pValidate p value path
      withStack p (modifyLast p.stack (fun fr => { fr with arrayIndex := fr.arrayIndex + 1 }))

/-- Source `setValue`: a scalar in value position — root, object member
(marks the key path completed and no longer pending) or array element. -/
def setValue (p : Parser) (value : JsonValue) : Parser :=
  match p.stack.getLast? with
  | none =>
    let p := { p with result := some value }
    pValidate p value []
  | some frame =>
    match frame.data with
    | FrameData.obj fields =>
      if ckTruthy frame.currentKey then
        let ck := frame.currentKey.getD []
        let path := getCurrentPath p.stack ++ [ck]
        let pathStr := joinPath path
        let newFrame :=
          { frame with
            data := FrameData.obj (objInsert fields ck value),
            completedKeys := setAdd frame.completedKeys ck,
            currentKey := none }
        let p := withStack p (modifyLast p.stack (fun _ => newFrame))
        let p := markCompleted p pathStr
        pValidate p value path
      else setError p ("No current key for value".toList)
    | FrameData.arr _ => pushArrayValue p value

/-- Source `handleInitialState`. -/
def handleInitialState (p : Parser) (t : Token) : Parser :=
  match t.type with
  | .objectStart =>
    let p := startObject p
    if p.exn then p else { p with state := PState.expectingKey }
  | .arrayStart =>
    let p := startArray p
    if p.exn then p else { p with state := PState.inArray }
  | .string | .number | .boolean | .null =>
    let p := { p with result := some t.value }
    let p := pValidate p t.value []
    { p with state := PState.complete }
  | ty => setError p (("Unexpected token at start: ".toList) ++ tokenTypeName ty)

/-- Source `handleObjectState` (both `InObject` and `ExpectingKey`). -/
def handleObjectState (p : Parser) (t : Token) : Parser :=
  match p.stack.getLast? with
  | none => setError p ("Invalid state: not in object".toList)
  | some frame =>
    match frame.data with
    | FrameData.arr _ => setError p ("Invalid state: not in object".toList)
    | FrameData.obj _ =>
      match t.type with
      | .key | .string =>
        let ck := match t.value with | .str s => s | _ => []
        let stack1 := modifyLast p.stack (fun fr => { fr with currentKey := some ck })
        let p := { p with stack := stack1 }
        let p := { p with pendingPaths := setAdd p.pendingPaths (joinPath (getCurrentPath p.stack)) }
        { p with state := PState.expectingColon }
      | .objectEnd => endObject p
      | .comma =>
        { p with state := PState.expectingKey, tok := setExpectingKeyTok p.tok true }
      | ty =>
        setError p (("Expected key or ".toList) ++ ['\x7d'] ++ (", got ".toList) ++
          tokenTypeName ty)

/-- Source `handleArrayState`. -/
def handleArrayState (p : Parser) (t : Token) : Parser :=
  match p.stack.getLast? with
  | none => setError p ("Invalid state: not in array".toList)
  | some frame =>
    match frame.data with
    | FrameData.obj _ => setError p ("Invalid state: not in array".toList)
    | FrameData.arr _ =>
      match t.type with
      | .objectStart =>
        let p := startObject p
        if p.exn then p else { p with state := PState.expectingKey }
      | .arrayStart =>
        let p := startArray p
        if p.exn then p else { p with state := PState.inArray }
      | .arrayEnd => endArray p
      | .string | .number | .boolean | .null =>
        let p := pushArrayValue p t.value
        if p.exn then p else { p with state := PState.expectingCommaOrEnd }
      | .comma =>
        if p.opts.allowTrailingCommas || p.opts.llmMode then p
        else setError p ("Unexpected comma in array".toList)
      | ty => setError p (("Unexpected token in array: ".toList) ++ tokenTypeName ty)

/-- Source `handleValueState`. -/
def handleValueState (p : Parser) (t : Token) : Parser :=
  match t.type with
  | .objectStart =>
    let p := startObject p
    if p.exn then p else { p with state := PState.expectingKey }
  | .arrayStart =>
    let p := startArray p
    if p.exn then p else { p with state := PState.inArray }
  | .string | .number | .boolean | .null =>
    let p := setValue p t.value
    if p.exn then p else { p with state := PState.expectingCommaOrEnd }
  | .objectEnd =>
    match p.stack.getLast? with
    | some frame =>
      if p.opts.llmMode then
        match frame.data with
        | FrameData.obj _ => endObject p
        | FrameData.arr _ => p
      else setError p (("Unexpected ".toList) ++ ['\x7d'] ++ (" when expecting value".toList))
    | none => setError p (("Unexpected ".toList) ++ ['\x7d'] ++ (" when expecting value".toList))
  | .arrayEnd =>
    match p.stack.getLast? with
    | some frame =>
      if p.opts.llmMode then
        match frame.data with
        | FrameData.arr _ => endArray p
        | FrameData.obj _ => p
      else setError p ("Unexpected ] when expecting value".toList)
    | none => setError p ("Unexpected ] when expecting value".toList)
  | ty => setError p (("Unexpected token when expecting value: ".toList) ++ tokenTypeName ty)

/-- Source `handleColonState` (a lenient parser reprocesses a non-colon token
as a value). -/
def handleColonState (p : Parser) (t : Token) : Parser :=
  if t.type = TokenType.colon then { p with state := PState.expectingValue }
  else if p.opts.llmMode then
    handleValueState { p with state := PState.expectingValue } t
  else setError p (("Expected :, got ".toList) ++ tokenTypeName t.type)

/-- Source `handleCommaOrEndState`. -/
def handleCommaOrEndState (p : Parser) (t : Token) : Parser :=
  match p.stack.getLast? with
  | none => { p with state := PState.complete }
  | some frame =>
    match t.type with
    | .comma =>
      match frame.data with
      | FrameData.obj _ =>
        { p with state := PState.expectingKey, tok := setExpectingKeyTok p.tok true }
      | FrameData.arr _ => { p with state := PState.inArray }
    | .objectEnd =>
      match frame.data with
      | FrameData.obj _ => endObject p
      | FrameData.arr _ =>
        setError p (("Unexpected ".toList) ++ ['\x7d'] ++ (" in array".toList))
    | .arrayEnd =>
      match frame.data with
      | FrameData.arr _ => endArray p
      | FrameData.obj _ => setError p ("Unexpected ] in object".toList)
    | ty =>
      if p.opts.llmMode then
        match frame.data with
        | FrameData.obj _ => handleObjectState { p with state := PState.expectingKey } t
        | FrameData.arr _ => handleArrayState { p with state := PState.inArray } t
      else
        setError p (("Expected , or end of container, got ".toList) ++ tokenTypeName ty)

/-- Source `handlePartialToken`: refresh `pendingPaths` from the tokenizer's
partial classification. -/
def handlePartialToken (p : Parser) (t : Token) : Parser :=
  let path := getCurrentPath p.stack
  if t.type = TokenType.partialString || t.type = TokenType.partialNumber then
    match p.stack.getLast? with
    | some frame =>
      match frame.data with
      | FrameData.obj _ =>
        if ckTruthy frame.currentKey then
          let vp := joinPath (path ++ [(frame.currentKey).getD []])
          { p with pendingPaths := setAdd p.pendingPaths vp }
        else p
      | FrameData.arr _ =>
        let vp := joinPath (path ++ [natToChars frame.arrayIndex])
        { p with pendingPaths := setAdd p.pendingPaths vp }
    | none => p
  else p

/-- Source `handleError`: lenient mode records a synthetic `syntax` error,
strict mode raises. -/
def handleError (p : Parser) (t : Token) : Parser :=
  if p.opts.llmMode then
    { p with errors := p.errors ++
        [mkVErr (getCurrentPath p.stack) ("syntax".toList) (jsStringOf t.value)
          (p.opts.schema.getD emptySchema) none] }
  else setError p (jsStringOf t.value)

/-- Source `tryRecover` (lenient mode, from the Error state): resynchronize on
structural tokens.  Its `processToken(token)` call lands in
`handleCommaOrEndState` because the state was just set and the token is not an
error token. -/
def tryRecover (p : Parser) (t : Token) : Parser :=
  match t.type with
  | .objectStart =>
    let p := startObject p
    if p.exn then p else { p with state := PState.expectingKey }
  | .arrayStart =>
    let p := startArray p
    if p.exn then p else { p with state := PState.inArray }
  | .objectEnd | .arrayEnd =>
    if p.stack.length > 0 then
      handleCommaOrEndState { p with state := PState.expectingCommaOrEnd } t
    else p
  | _ => p

/-- Source `processToken`.  The `exn` entry guard models the abort of the
token loop by a thrown error. -/
def processToken (p : Parser) (t : Token) : Parser :=
  if p.exn then p
  else if t.type = TokenType.error then handleError p t
  else
    match p.state with
    | .initial => handleInitialState p t
    | .inObject | .expectingKey => handleObjectState p t
    | .expectingColon => handleColonState p t
    | .expectingValue => handleValueState p t
    | .inArray => handleArrayState p t
    | .expectingCommaOrEnd => handleCommaOrEndState p t
    | .complete => p
    | .error => if p.opts.llmMode then tryRecover p t else p

/-- Source `getCurrentData`: the root (for an empty stack) or the bottom
frame's growing value. -/
def getCurrentData (p : Parser) : Option JsonValue :=
  match p.stack.head? with
  | none => p.result
  | some rootFrame => some (frameValue rootFrame.data)

/-- Source `buildResult`. -/
def buildResult (p : Parser) : ParseResult :=
  { complete := p.state = PState.complete,
    valid := p.errors.isEmpty,
    data := getCurrentData p,
    completedFields := p.completedPaths,
    pendingFields := p.pendingPaths,
    errors := p.errors,
    depth := p.stack.length,
    bytesProcessed := p.bytesProcessed }

/-- The entry bookkeeping of `feed`: clear the throw flag, count the bytes of
the chunk, and synchronize the tokenizer's expecting-key hint with the parser
state. -/
def pFeedSync (p : Parser) (chunk : List Char) : Parser :=
  let p := { p with exn := false }
  let p := { p with bytesProcessed := p.bytesProcessed + chunk.length }
  let expecting :=
    p.state = PState.expectingKey ||
    (p.state = PState.initial && p.stack.isEmpty)
  { p with tok := setExpectingKeyTok p.tok expecting }

/-- Source `feed`: count bytes, synchronize the expecting-key hint, tokenize,
process every token (aborting on a thrown error), fold in the partial
classification, snapshot.  A strict-mode throw yields no `ParseResult`. -/
def pFeed (p : Parser) (chunk : List Char) : Parser × Option ParseResult :=
  let q := pFeedSync p chunk
  let fed := tokFeed q.tok chunk
  let q := { q with tok := fed.1 }
  let q := fed.2.foldl processToken q
  if q.exn then (q, none)
  else
    let q :=
      match getPartialToken q.tok with
      | some t => handlePartialToken q t
      | none => q
    (q, some (buildResult q))

/-- Feed a sequence of chunks, collecting the snapshot of each call
(`none` where the call raised). -/
def feedMany (p : Parser) : List (List Char) → Parser × List (Option ParseResult)
  | [] => (p, [])
  | c :: cs =>
    let (p', r) := pFeed p c
    let (p'', rs) := feedMany p' cs
    (p'', r :: rs)

/-- Convenience: `createStreamParser` with a schema (strict mode defaults). -/
def mkStrictParser (schema : Option Schema)
    (regexTest : List Char → List Char → List Char → Bool) (vfuel : Nat) : Parser :=
  mkParser { schema := schema } regexTest vfuel

/-- Convenience: `createLLMParser` (sets `llmMode := true`). -/
def mkLLMParser (schema : Option Schema)
    (regexTest : List Char → List Char → List Char → Bool) (vfuel : Nat) : Parser :=
  mkParser { schema := schema, llmMode := some true } regexTest vfuel

/-! Definitions used by the claim statements. -/

/-- The depth invariant: the container stack never exceeds `maxDepth`. -/
@[reducible] def DepthOk (p : Parser) : Prop := p.stack.length ≤ p.opts.maxDepth

/-- Termination of `resolveRef` on a schema, in the fuel encoding: some fuel
suffices. -/
def ResolveTerminates (V : Validator) (s : Schema) : Prop :=
  ∃ n, (resolveRefF V n s).isSome

/-- The chain of schemas visited by `resolveRef`: `n` lookup hops from `s`. -/
def chainIter (V : Validator) : Nat → Schema → Schema
  | 0, s => s
  | n + 1, s =>
    match refStep V s with
    | none => s
    | some d => chainIter V n d

/-- A trivially-false regex oracle, used for the concrete evaluations (none of
them reaches a regex keyword). -/
def rtF : List Char → List Char → List Char → Bool := fun _ _ _ => false

/-- Schema `{type:"number"}`. -/
def numSchema : Schema := Schema.mk { type := some (Sum.inl SchemaType.number) }

/-- Schema `{type:"object", properties:{a:{type:"number"}}}` (claim C3). -/
def c3Schema : Schema :=
  Schema.mk { type := some (Sum.inl SchemaType.object),
              properties := some [("a".toList, numSchema)] }

/-- Schema `{properties:{x:{type:"number"}}}` — no `type` keyword, structural
hint only (claim C6). -/
def hintSchema : Schema :=
  Schema.mk { properties := some [("x".toList, numSchema)] }

/-- Schema `{type:["integer"]}` (claim C6). -/
def intListSchema : Schema :=
  Schema.mk { type := some (Sum.inr [SchemaType.integer]) }

/-- A bare `$ref` schema. -/
def refSchema (r : List Char) : Schema := Schema.mk { ref := some r }

/-- Schema with mutually-referencing definitions
`{$ref:"#/$defs/a", $defs:{a:{$ref:"#/$defs/b"}, b:{$ref:"#/$defs/a"}}}`
(claim C8). -/
def cycSchema : Schema :=
  Schema.mk { ref := some ("#/$defs/a".toList),
              defs := [("a".toList, refSchema ("#/$defs/b".toList)),
                       ("b".toList, refSchema ("#/$defs/a".toList))] }

/-- The value a JSON type `t` constructs for claim C6's counterexample
reading (`getJSONType v = t`). -/
def isIntegerLikeV : JsonValue → Bool
  | .num q => isIntegerQ q
  | _ => false

/-- The list form of a `type` keyword (singleton for a scalar keyword). -/
def typeKeywordList : SchemaType ⊕ List SchemaType → List SchemaType
  | Sum.inl T => [T]
  | Sum.inr l => l

/-- Concrete run for claim C1: a fresh strict parser fed the valid JSON text
`"hi"` in one chunk. -/
def c1Run : Parser × Option ParseResult :=
  pFeed (mkStrictParser none rtF 50) ("\"hi\"".toList)

/-- Concrete run for claim C2: a fresh strict parser fed the valid JSON text
of a nested object in one chunk. -/
def c2Run : Parser × Option ParseResult :=
  pFeed (mkStrictParser none rtF 50) ("\x7b\"a\": \x7b\"b\": 1\x7d\x7d".toList)

/-- Concrete run for claim C3: a parser with schema
`{type:"object", properties:{a:{type:"number"}}}` fed the chunk ending right
after the inner container closes. -/
def c3Run : Parser × Option ParseResult :=
  pFeed (mkStrictParser (some c3Schema) rtF 50) ("\x7b\"a\":\x7b\x7d".toList)

/-- Concrete runs for claim C4: a lenient parser with `maxDepth = 1`; the
first chunk ends just after the depth-exceeding `{`, the second completes the
document. -/
def c4Run1 : Parser × Option ParseResult :=
  pFeed (mkParser { llmMode := some true, maxDepth := some 1 } rtF 50)
    ("\x7b\"a\":\x7b".toList)

def c4Run2 : Parser × Option ParseResult :=
  pFeed c4Run1.1 ("\"b\":1\x7d,\"c\":2\x7d".toList)

/-- Concrete parser for claim C5: `llmMode = true` with `allowSingleQuotes`
explicitly `false`. -/
def c5P : Parser :=
  mkParser { llmMode := some true, allowSingleQuotes := some false } rtF 50

def c5Run : Parser × Option ParseResult :=
  pFeed c5P ("\x7b'a': 1\x7d".toList)

/-- Concrete runs for claim C9: complete a parse of `{}`, then feed `@`. -/
def c9Run0 : Parser × Option ParseResult :=
  pFeed (mkStrictParser none rtF 50) ("\x7b\x7d".toList)

def c9Run1 : Parser × Option ParseResult := pFeed c9Run0.1 ("@".toList)

/-- Concrete run for claim C7: a strict parser fed an object whose first
member is completed by the first chunk. -/
def c7Run1 : Parser × Option ParseResult :=
  pFeed (mkStrictParser none rtF 50) ("\x7b\"a\":1,".toList)

/-! Helper lemmas: effect envelopes of the parser operations.  Every operation
preserves the merged options, only ever extends `completedPaths`, and keeps
the stack within the depth bound. -/

/-- Effect envelope of a parser operation: options preserved, `completedPaths`
only extended, stack growth at most one frame and only under the depth
ceiling. -/
def Envelope (p q : Parser) : Prop :=
  q.opts = p.opts ∧ p.completedPaths ⊆ q.completedPaths ∧
  q.stack.length ≤ max p.stack.length p.opts.maxDepth

theorem Envelope.rfl (p : Parser) : Envelope p p :=
  ⟨Eq.refl _, List.Subset.refl _, le_max_left _ _⟩

theorem Envelope.trans {p q r : Parser} (h1 : Envelope p q) (h2 : Envelope q r) :
    Envelope p r := by
  obtain ⟨ho1, hc1, hs1⟩ := h1
  obtain ⟨ho2, hc2, hs2⟩ := h2
  refine ⟨ho2.trans ho1, hc1.trans hc2, ?_⟩
  rw [ho1] at hs2
  omega

theorem subset_setAdd (l : List (List Char)) (s : List Char) : l ⊆ setAdd l s := by
  unfold setAdd
  split
  · exact List.Subset.refl l
  · exact List.subset_append_left l [s]

theorem modifyLast_length (s : List Frame) (f : Frame → Frame) :
    (modifyLast s f).length = s.length := by
  unfold modifyLast
  split
  · rfl
  · rename_i fr h
    have hne : s ≠ [] := by
      intro he
      rw [he] at h
      simp at h
    have hpos : 0 < s.length := List.length_pos.mpr hne
    simp [List.length_dropLast]
    omega

theorem env_same {p q : Parser} (ho : q.opts = p.opts)
    (hc : q.completedPaths = p.completedPaths) (hs : q.stack.length = p.stack.length) :
    Envelope p q :=
  ⟨ho, hc ▸ List.Subset.refl _, by rw [hs]; exact le_max_left _ _⟩

theorem setError_env (p : Parser) (m : List Char) : Envelope p (setError p m) := by
  unfold setError
  by_cases h : p.opts.llmMode <;> simp only [h] <;> exact env_same rfl rfl rfl

theorem setError_state (p : Parser) (m : List Char) :
    (setError p m).state = PState.error ∧ (setError p m).stack = p.stack ∧
    (setError p m).completedPaths = p.completedPaths ∧
    (setError p m).result = p.result ∧ (setError p m).errors = p.errors ∧
    (setError p m).opts = p.opts := by
  unfold setError
  by_cases h : p.opts.llmMode <;> simp only [h] <;>
    exact ⟨rfl, rfl, rfl, rfl, rfl, rfl⟩

theorem pValidate_env (p : Parser) (v : JsonValue) (path : List (List Char)) :
    Envelope p (pValidate p v path) := by
  unfold pValidate
  split
  · exact Envelope.rfl p
  · split
    · exact env_same rfl rfl rfl
    · exact Envelope.rfl p

theorem pValidate_same (p : Parser) (v : JsonValue) (path : List (List Char)) :
    (pValidate p v path).opts = p.opts ∧
    (pValidate p v path).stack = p.stack ∧
    (pValidate p v path).completedPaths = p.completedPaths ∧
    (pValidate p v path).pendingPaths = p.pendingPaths ∧
    (pValidate p v path).state = p.state ∧
    (pValidate p v path).exn = p.exn ∧
    (pValidate p v path).result = p.result := by
  unfold pValidate
  split
  · exact ⟨rfl, rfl, rfl, rfl, rfl, rfl, rfl⟩
  · split <;> exact ⟨rfl, rfl, rfl, rfl, rfl, rfl, rfl⟩

theorem earlyTypeCheck_env (p : Parser) (t : SchemaType) (msg : List Char)
    (path : List (List Char)) (schema : Option Schema) :
    Envelope p (earlyTypeCheck p t msg path schema) := by
  unfold earlyTypeCheck
  split
  · split
    · exact env_same rfl rfl rfl
    · exact Envelope.rfl p
  · exact Envelope.rfl p

theorem earlyTypeCheck_same (p : Parser) (t : SchemaType) (msg : List Char)
    (path : List (List Char)) (schema : Option Schema) :
    (earlyTypeCheck p t msg path schema).opts = p.opts ∧
    (earlyTypeCheck p t msg path schema).stack = p.stack ∧
    (earlyTypeCheck p t msg path schema).completedPaths = p.completedPaths ∧
    (earlyTypeCheck p t msg path schema).pendingPaths = p.pendingPaths ∧
    (earlyTypeCheck p t msg path schema).state = p.state ∧
    (earlyTypeCheck p t msg path schema).exn = p.exn := by
  unfold earlyTypeCheck
  split
  · split
    · exact ⟨rfl, rfl, rfl, rfl, rfl, rfl⟩
    · exact ⟨rfl, rfl, rfl, rfl, rfl, rfl⟩
  · exact ⟨rfl, rfl, rfl, rfl, rfl, rfl⟩

theorem popFrame_env (p : Parser) : Envelope p (popFrame p) := by
  refine ⟨rfl, List.Subset.refl _, ?_⟩
  show p.stack.dropLast.length ≤ _
  have h : p.stack.dropLast.length ≤ p.stack.length := by
    rw [List.length_dropLast]
    omega
  exact le_trans h (le_max_left _ _)

theorem markCompleted_env (p : Parser) (s : List Char) :
    Envelope p (markCompleted p s) :=
  ⟨rfl, subset_setAdd _ _, le_max_left _ _⟩

theorem startObject_env (p : Parser) : Envelope p (startObject p) := by
  unfold startObject
  split
  · exact setError_env p _
  · rename_i h
    have h' : p.stack.length < p.opts.maxDepth := by omega
    have hE := earlyTypeCheck_same p SchemaType.object
      ("Expected different type, got object".toList) (getCurrentPath p.stack)
      (cachedSchemaAt p (getCurrentPath p.stack))
    refine ⟨hE.1, ?_, ?_⟩
    · show p.completedPaths ⊆ (earlyTypeCheck p _ _ _ _).completedPaths
      rw [hE.2.2.1]
      exact List.Subset.refl _
    · show ((earlyTypeCheck p _ _ _ _).stack ++ [_]).length ≤ _
      rw [List.length_append, hE.2.1]
      simp only [List.length_singleton]
      exact le_trans (by omega) (le_max_right _ _)

theorem startArray_env (p : Parser) : Envelope p (startArray p) := by
  unfold startArray
  split
  · exact setError_env p _
  · rename_i h
    have h' : p.stack.length < p.opts.maxDepth := by omega
    have hE := earlyTypeCheck_same p SchemaType.array
      ("Expected different type, got array".toList) (getCurrentPath p.stack)
      (cachedSchemaAt p (getCurrentPath p.stack))
    refine ⟨hE.1, ?_, ?_⟩
    · show p.completedPaths ⊆ (earlyTypeCheck p _ _ _ _).completedPaths
      rw [hE.2.2.1]
      exact List.Subset.refl _
    · show ((earlyTypeCheck p _ _ _ _).stack ++ [_]).length ≤ _
      rw [List.length_append, hE.2.1]
      simp only [List.length_singleton]
      exact le_trans (by omega) (le_max_right _ _)

theorem withStack_modifyLast_env (p : Parser) (f : Frame → Frame) :
    Envelope p (withStack p (modifyLast p.stack f)) :=
  env_same rfl rfl (modifyLast_length _ _)

theorem addCompleted_env (q : Parser) (x : List Char) :
    Envelope q { q with completedPaths := setAdd q.completedPaths x } :=
  ⟨rfl, subset_setAdd _ _, le_max_left _ _⟩

theorem assignValue_env (p : Parser) (v : JsonValue) : Envelope p (assignValue p v) := by
  unfold assignValue
  split
  · exact env_same rfl rfl rfl
  · rename_i frame hlast
    split
    · split
      · exact (withStack_modifyLast_env p _).trans (addCompleted_env _ _)
      · exact setError_env p _
    · exact withStack_modifyLast_env p _

theorem pushArrayValue_env (p : Parser) (v : JsonValue) :
    Envelope p (pushArrayValue p v) := by
  unfold pushArrayValue
  split
  · exact setError_env p _
  · rename_i frame hlast
    split
    · exact setError_env p _
    · exact (withStack_modifyLast_env p _).trans ((markCompleted_env _ _).trans
        ((pValidate_env _ _ _).trans (withStack_modifyLast_env _ _)))

theorem setValue_env (p : Parser) (v : JsonValue) : Envelope p (setValue p v) := by
  unfold setValue
  split
  · exact (env_same rfl rfl rfl).trans (pValidate_env _ _ _)
  · rename_i frame hlast
    split
    · split
      · exact (withStack_modifyLast_env p _).trans ((markCompleted_env _ _).trans
          (pValidate_env _ _ _))
      · exact setError_env p _
    · exact pushArrayValue_env p v

theorem env_stateIte (q : Parser) :
    Envelope q (if q.exn then q
      else if q.stack.isEmpty then { q with state := PState.complete }
      else { q with state := PState.expectingCommaOrEnd }) := by
  split
  · exact Envelope.rfl q
  · split <;> exact env_same rfl rfl rfl

theorem endObject_env (p : Parser) : Envelope p (endObject p) := by
  unfold endObject
  split
  · exact setError_env p _
  · rename_i frame hlast
    split
    · exact (popFrame_env p).trans (setError_env _ _)
    · exact (popFrame_env p).trans ((markCompleted_env _ _).trans
        ((pValidate_env _ _ _).trans ((assignValue_env _ _).trans (env_stateIte _))))

theorem endArray_env (p : Parser) : Envelope p (endArray p) := by
  unfold endArray
  split
  · exact setError_env p _
  · rename_i frame hlast
    split
    · exact (popFrame_env p).trans (setError_env _ _)
    · exact (popFrame_env p).trans ((markCompleted_env _ _).trans
        ((pValidate_env _ _ _).trans ((assignValue_env _ _).trans (env_stateIte _))))

theorem env_to (p q : Parser) (ho : q.opts = p.opts)
    (hc : q.completedPaths = p.completedPaths) (hs : q.stack.length = p.stack.length) :
    Envelope p q := env_same ho hc hs

theorem env_exnGuardState (q : Parser) (s : PState) :
    Envelope q (if q.exn then q else { q with state := s }) := by
  split
  · exact Envelope.rfl q
  · exact env_same rfl rfl rfl

theorem handleInitialState_env (p : Parser) (t : Token) :
    Envelope p (handleInitialState p t) := by
  unfold handleInitialState
  split
  · exact (startObject_env p).trans (env_exnGuardState _ _)
  · exact (startArray_env p).trans (env_exnGuardState _ _)
  all_goals
    first
      | exact (env_to p { p with result := some t.value } rfl rfl rfl).trans
          ((pValidate_env _ _ _).trans (env_same rfl rfl rfl))
      | exact setError_env p _

theorem handleObjectState_env (p : Parser) (t : Token) :
    Envelope p (handleObjectState p t) := by
  unfold handleObjectState
  split
  · exact setError_env p _
  · split
    · exact setError_env p _
    · split
      · exact ⟨rfl, List.Subset.refl _,
          le_trans (le_of_eq (modifyLast_length _ _)) (le_max_left _ _)⟩
      · exact ⟨rfl, List.Subset.refl _,
          le_trans (le_of_eq (modifyLast_length _ _)) (le_max_left _ _)⟩
      · exact endObject_env p
      · exact env_same rfl rfl rfl
      · exact setError_env p _

theorem handleArrayState_env (p : Parser) (t : Token) :
    Envelope p (handleArrayState p t) := by
  unfold handleArrayState
  split
  · exact setError_env p _
  · split
    · exact setError_env p _
    · split
      · exact (startObject_env p).trans (env_exnGuardState _ _)
      · exact (startArray_env p).trans (env_exnGuardState _ _)
      · exact endArray_env p
      · exact (pushArrayValue_env p _).trans (env_exnGuardState _ _)
      · exact (pushArrayValue_env p _).trans (env_exnGuardState _ _)
      · exact (pushArrayValue_env p _).trans (env_exnGuardState _ _)
      · exact (pushArrayValue_env p _).trans (env_exnGuardState _ _)
      · split
        · exact Envelope.rfl p
        · exact setError_env p _
      · exact setError_env p _

theorem handleValueState_env (p : Parser) (t : Token) :
    Envelope p (handleValueState p t) := by
  unfold handleValueState
  split
  · exact (startObject_env p).trans (env_exnGuardState _ _)
  · exact (startArray_env p).trans (env_exnGuardState _ _)
  · exact (setValue_env p _).trans (env_exnGuardState _ _)
  · exact (setValue_env p _).trans (env_exnGuardState _ _)
  · exact (setValue_env p _).trans (env_exnGuardState _ _)
  · exact (setValue_env p _).trans (env_exnGuardState _ _)
  · split
    · split
      · split
        · exact endObject_env p
        · exact Envelope.rfl p
      · exact setError_env p _
    · exact setError_env p _
  · split
    · split
      · split
        · exact endArray_env p
        · exact Envelope.rfl p
      · exact setError_env p _
    · exact setError_env p _
  · exact setError_env p _

theorem handleColonState_env (p : Parser) (t : Token) :
    Envelope p (handleColonState p t) := by
  unfold handleColonState
  split
  · exact env_same rfl rfl rfl
  · split
    · exact (env_to p { p with state := PState.expectingValue } rfl rfl rfl).trans
        (handleValueState_env _ t)
    · exact setError_env p _

theorem handleCommaOrEndState_env (p : Parser) (t : Token) :
    Envelope p (handleCommaOrEndState p t) := by
  unfold handleCommaOrEndState
  split
  · exact env_same rfl rfl rfl
  · split
    · split
      · exact env_same rfl rfl rfl
      · exact env_same rfl rfl rfl
    · split
      · exact endObject_env p
      · exact setError_env p _
    · split
      · exact endArray_env p
      · exact setError_env p _
    · split
      · split
        · exact (env_to p { p with state := PState.expectingKey } rfl rfl rfl).trans
            (handleObjectState_env _ t)
        · exact (env_to p { p with state := PState.inArray } rfl rfl rfl).trans
            (handleArrayState_env _ t)
      · exact setError_env p _

theorem handlePartialToken_env (p : Parser) (t : Token) :
    Envelope p (handlePartialToken p t) := by
  unfold handlePartialToken
  split
  · split
    · split
      · split
        · exact env_same rfl rfl rfl
        · exact Envelope.rfl p
      · exact env_same rfl rfl rfl
    · exact Envelope.rfl p
  · exact Envelope.rfl p

theorem handleError_env (p : Parser) (t : Token) : Envelope p (handleError p t) := by
  unfold handleError
  split
  · exact env_same rfl rfl rfl
  · exact setError_env p _

theorem tryRecover_env (p : Parser) (t : Token) : Envelope p (tryRecover p t) := by
  unfold tryRecover
  split
  · exact (startObject_env p).trans (env_exnGuardState _ _)
  · exact (startArray_env p).trans (env_exnGuardState _ _)
  all_goals
    first
      | (split
         · exact (env_to p { p with state := PState.expectingCommaOrEnd } rfl rfl rfl).trans
             (handleCommaOrEndState_env _ t)
         · exact Envelope.rfl p)
      | exact Envelope.rfl p

theorem processToken_env (p : Parser) (t : Token) : Envelope p (processToken p t) := by
  unfold processToken
  split
  · exact Envelope.rfl p
  · split
    · exact handleError_env p t
    · split
      · exact handleInitialState_env p t
      · exact handleObjectState_env p t
      · exact handleObjectState_env p t
      · exact handleColonState_env p t
      · exact handleValueState_env p t
      · exact handleArrayState_env p t
      · exact handleCommaOrEndState_env p t
      · exact Envelope.rfl p
      · split
        · exact tryRecover_env p t
        · exact Envelope.rfl p

theorem foldl_processToken_env (toks : List Token) (p : Parser) :
    Envelope p (toks.foldl processToken p) := by
  induction toks generalizing p with
  | nil => exact Envelope.rfl p
  | cons t rest ih => exact (processToken_env p t).trans (ih (processToken p t))

theorem pFeed_env (p : Parser) (chunk : List Char) : Envelope p (pFeed p chunk).1 := by
  unfold pFeed
  dsimp only
  split
  · refine Envelope.trans ?_ (foldl_processToken_env _ _)
    exact env_same rfl rfl rfl
  · split
    · refine Envelope.trans ?_ (handlePartialToken_env _ _)
      refine Envelope.trans ?_ (foldl_processToken_env _ _)
      exact env_same rfl rfl rfl
    · refine Envelope.trans ?_ (foldl_processToken_env _ _)
      exact env_same rfl rfl rfl

theorem feedMany_env (chunks : List (List Char)) (p : Parser) :
    Envelope p (feedMany p chunks).1 := by
  induction chunks generalizing p with
  | nil => exact Envelope.rfl p
  | cons c rest ih =>
    unfold feedMany
    exact (pFeed_env p c).trans (ih (pFeed p c).1)

theorem env_depth {p q : Parser} (h : Envelope p q) (hd : DepthOk p) : DepthOk q := by
  obtain ⟨ho, _, hs⟩ := h
  unfold DepthOk at *
  rw [ho]
  exact le_trans hs (max_le hd le_rfl)

/-! Helper lemmas: behaviour in the Complete and Error states, and the shape
of the snapshots returned by `feed`. -/

theorem processToken_complete (p : Parser) (t : Token) (hc : p.state = PState.complete)
    (ht : t.type ≠ TokenType.error) : processToken p t = p := by
  unfold processToken
  by_cases he : p.exn
  · simp [he]
  · simp [he, ht, hc]

theorem foldl_processToken_complete (toks : List Token) (p : Parser)
    (hc : p.state = PState.complete) (ht : ∀ t ∈ toks, t.type ≠ TokenType.error) :
    toks.foldl processToken p = p := by
  induction toks with
  | nil => rfl
  | cons t rest ih =>
    simp only [List.foldl_cons]
    rw [processToken_complete p t hc (ht t (by simp))]
    exact ih (fun x hx => ht x (by simp [hx]))

theorem handlePartialToken_emptyStack (p : Parser) (t : Token) (hs : p.stack = []) :
    handlePartialToken p t = p := by
  unfold handlePartialToken
  split
  · rw [hs]
    simp
  · rfl

theorem handlePartialToken_same (p : Parser) (t : Token) :
    (handlePartialToken p t).state = p.state ∧
    (handlePartialToken p t).stack = p.stack ∧
    (handlePartialToken p t).completedPaths = p.completedPaths ∧
    (handlePartialToken p t).result = p.result ∧
    (handlePartialToken p t).opts = p.opts ∧
    (handlePartialToken p t).errors = p.errors := by
  unfold handlePartialToken
  split
  · split
    · split
      · split <;> exact ⟨rfl, rfl, rfl, rfl, rfl, rfl⟩
      · exact ⟨rfl, rfl, rfl, rfl, rfl, rfl⟩
    · exact ⟨rfl, rfl, rfl, rfl, rfl, rfl⟩
  · exact ⟨rfl, rfl, rfl, rfl, rfl, rfl⟩

theorem processToken_error_strict (p : Parser) (t : Token)
    (hs : p.state = PState.error) (hllm : p.opts.llmMode = false) :
    (processToken p t).state = PState.error ∧
    (processToken p t).stack = p.stack ∧
    (processToken p t).completedPaths = p.completedPaths ∧
    (processToken p t).result = p.result ∧
    (processToken p t).errors = p.errors := by
  unfold processToken
  by_cases he : p.exn
  · simp [he, hs]
  · by_cases ht : t.type = TokenType.error
    · simp only [he, ht, Bool.false_eq_true, if_false, if_true]
      unfold handleError
      simp only [hllm, Bool.false_eq_true, if_false]
      have h := setError_state p (jsStringOf t.value)
      exact ⟨h.1, h.2.1, h.2.2.1, h.2.2.2.1, h.2.2.2.2.1⟩
    · simp [he, ht, hs, hllm]

theorem foldl_processToken_error_strict (toks : List Token) (p : Parser)
    (hs : p.state = PState.error) (hllm : p.opts.llmMode = false) :
    (toks.foldl processToken p).state = PState.error ∧
    (toks.foldl processToken p).stack = p.stack ∧
    (toks.foldl processToken p).completedPaths = p.completedPaths ∧
    (toks.foldl processToken p).result = p.result ∧
    (toks.foldl processToken p).errors = p.errors := by
  induction toks generalizing p with
  | nil => exact ⟨hs, rfl, rfl, rfl, rfl⟩
  | cons t rest ih =>
    have h1 := processToken_error_strict p t hs hllm
    have hop : (processToken p t).opts = p.opts := (processToken_env p t).1
    simp only [List.foldl_cons]
    have h2 := ih (processToken p t) h1.1 (by rw [hop]; exact hllm)
    exact ⟨h2.1, h2.2.1.trans h1.2.1, h2.2.2.1.trans h1.2.2.1,
      h2.2.2.2.1.trans h1.2.2.2.1, h2.2.2.2.2.trans h1.2.2.2.2⟩

theorem pFeed_snd_eq (p : Parser) (chunk : List Char) (r : ParseResult)
    (h : (pFeed p chunk).2 = some r) : r = buildResult (pFeed p chunk).1 := by
  unfold pFeed at *
  dsimp only at *
  split at h
  · exact absurd h (by simp)
  · rename_i hexn
    split at h <;> simp_all

theorem feedMany_cons (p : Parser) (c : List Char) (cs : List (List Char)) :
    feedMany p (c :: cs) =
      ((feedMany (pFeed p c).1 cs).1, (pFeed p c).2 :: (feedMany (pFeed p c).1 cs).2) := by
  show (match pFeed p c with
    | (p', r) =>
      match feedMany p' cs with
      | (p'', rs) => (p'', r :: rs)) = _
  rcases h1 : pFeed p c with ⟨p', r⟩
  rcases h2 : feedMany p' cs with ⟨p'', rs⟩
  simp [h1, h2]

/-! Helper lemmas for the validator: `resolveRef` reaches fixpoints, and its
termination is characterized by the `$ref` chain reaching a base schema. -/

theorem resolveRefF_fix (V : Validator) :
    ∀ (n : Nat) (s x : Schema), resolveRefF V n s = some x → refStep V x = none := by
  intro n
  induction n with
  | zero => intro s x h; simp [resolveRefF] at h
  | succ n ih =>
    intro s x h
    unfold resolveRefF at h
    cases hr : refStep V s with
    | none =>
      rw [hr] at h
      cases h
      exact hr
    | some d =>
      rw [hr] at h
      exact ih d x h

theorem resolveRefF_of_fix (V : Validator) (s : Schema) (h : refStep V s = none)
    (n : Nat) : resolveRefF V (n + 1) s = some s := by
  unfold resolveRefF
  rw [h]

/-- C8 amended: `resolveRef` terminates on a schema exactly when the chain of
single `$ref` lookup hops starting from it reaches, in finitely many steps, a
schema on which a lookup step makes no progress (a schema without `$ref`, or a
dangling pointer); on mutually-referring `$defs` cycles it diverges. -/
theorem c8_amended_terminates_iff_chain (V : Validator) (s : Schema) :
    ResolveTerminates V s ↔ ∃ n, refStep V (chainIter V n s) = none := by
  constructor
  · rintro ⟨n, hn⟩
    induction n generalizing s with
    | zero => simp [resolveRefF] at hn
    | succ n ih =>
      unfold resolveRefF at hn
      cases hr : refStep V s with
      | none => exact ⟨0, hr⟩
      | some d =>
        rw [hr] at hn
        obtain ⟨k, hk⟩ := ih d hn
        refine ⟨k + 1, ?_⟩
        show refStep V (chainIter V (k + 1) s) = none
        unfold chainIter
        rw [hr]
        exact hk
  · rintro ⟨n, hn⟩
    induction n generalizing s with
    | zero =>
      exact ⟨1, by rw [resolveRefF_of_fix V s hn 0]; rfl⟩
    | succ n ih =>
      cases hr : refStep V s with
      | none => exact ⟨1, by rw [resolveRefF_of_fix V s hr 0]; rfl⟩
      | some d =>
        unfold chainIter at hn
        rw [hr] at hn
        obtain ⟨k, hk⟩ := ih d hn
        refine ⟨k + 1, ?_⟩
        unfold resolveRefF
        rw [hr]
        exact hk

/-! Helper lemmas: `feed` in the Error state, the snapshots of `feedMany`,
and the leading type errors of `validateValue`. -/

theorem setError_exn_strict (p : Parser) (m : List Char)
    (h : p.opts.llmMode = false) : (setError p m).exn = true := by
  unfold setError
  dsimp only
  rw [h]
  rfl

theorem pFeed_error_strict (p : Parser) (chunk : List Char)
    (hs : p.state = PState.error) (hllm : p.opts.llmMode = false) :
    (pFeed p chunk).1.state = PState.error ∧
    (pFeed p chunk).1.result = p.result ∧
    (pFeed p chunk).1.completedPaths = p.completedPaths := by
  have hF := foldl_processToken_error_strict
    (tokFeed (pFeedSync p chunk).tok chunk).2
    ({ pFeedSync p chunk with tok := (tokFeed (pFeedSync p chunk).tok chunk).1 })
    hs hllm
  unfold pFeed
  dsimp only
  split
  · exact ⟨hF.1, hF.2.2.2.1, hF.2.2.1⟩
  · split
    · exact ⟨(handlePartialToken_same _ _).1.trans hF.1,
        (handlePartialToken_same _ _).2.2.2.1.trans hF.2.2.2.1,
        (handlePartialToken_same _ _).2.2.1.trans hF.2.2.1⟩
    · exact ⟨hF.1, hF.2.2.2.1, hF.2.2.1⟩

theorem feedMany_snapshot_completed (cs : List (List Char)) (p : Parser)
    (r : ParseResult) (h : some r ∈ (feedMany p cs).2) :
    p.completedPaths ⊆ r.completedFields := by
  induction cs generalizing p with
  | nil => simp [feedMany] at h
  | cons c rest ih =>
    rw [feedMany_cons] at h
    rcases List.mem_cons.mp h with h | h
    · have hr := pFeed_snd_eq p c r h.symm
      rw [hr]
      exact (pFeed_env p c).2.1
    · exact ((pFeed_env p c).2.1).trans (ih (pFeed p c).1 h)

theorem feedMany_snapshot_depth (cs : List (List Char)) (p : Parser)
    (r : ParseResult) (hd : DepthOk p) (h : some r ∈ (feedMany p cs).2) :
    r.depth ≤ p.opts.maxDepth := by
  induction cs generalizing p with
  | nil => simp [feedMany] at h
  | cons c rest ih =>
    rw [feedMany_cons] at h
    rcases List.mem_cons.mp h with h | h
    · have hr := pFeed_snd_eq p c r h.symm
      have hdq := env_depth (pFeed_env p c) hd
      have hop : (pFeed p c).1.opts = p.opts := (pFeed_env p c).1
      rw [hr]
      show (pFeed p c).1.stack.length ≤ p.opts.maxDepth
      rw [← hop]
      exact hdq
    · have hop : (pFeed p c).1.opts = p.opts := (pFeed_env p c).1
      have hrec := ih (pFeed p c).1 (env_depth (pFeed_env p c) hd) h
      rwa [hop] at hrec

theorem validateValueF_type_prefix (V : Validator) (f : Nat) (v : JsonValue)
    (pth : List (List Char)) (c r : Schema) (errs : List VError)
    (hres : resolveRefF V (f + 1) c = some r)
    (h : validateValueF V (f + 1) v pth c = some errs) :
    ∃ tail, errs =
      (match r.un.type with
       | none => []
       | some τ => validateTypeF v τ pth c) ++ tail := by
  unfold validateValueF at h
  rw [hres] at h
  dsimp only at h
  generalize hb : (decide ((match r.un.type with
    | none => ([] : List VError)
    | some τ => validateTypeF v τ pth c).length > 0) && V.opts.earlyReject) = b at h
  cases b with
  | true =>
    rw [if_pos rfl] at h
    obtain rfl : (match r.un.type with
      | none => []
      | some τ => validateTypeF v τ pth c) = errs := Option.some.inj h
    exact ⟨[], (List.append_nil _).symm⟩
  | false =>
    rw [if_neg Bool.false_ne_true] at h
    rcases Option.bind_eq_some.mp h with ⟨kE, hk, h⟩
    rcases Option.bind_eq_some.mp h with ⟨aE, ha, h⟩
    rcases Option.bind_eq_some.mp h with ⟨anE, han, h⟩
    rcases Option.bind_eq_some.mp h with ⟨oE, hoE, h⟩
    rcases Option.bind_eq_some.mp h with ⟨nE, hnE, h⟩
    rcases Option.bind_eq_some.mp h with ⟨cE, hcE, h⟩
    obtain rfl : _ = errs := Option.some.inj h
    simp only [List.append_assoc]
    exact ⟨_, rfl⟩

/-! The claims. -/

/-- C1: the claim states that every valid JSON text, under every partition,
parses to a Complete result in strict mode.  The code contradicts it (and the
spec's own `Initial | scalar → Complete` transition): `feed` synchronizes the
tokenizer's expecting-key hint to `true` in the Initial state, so a root-level
string scalar is tokenized as a `Key` token, which `handleInitialState`
rejects — the strict parser throws on the valid JSON text `"hi"` and ends in
the Error state with no `ParseResult`. -/
theorem c1_root_string_rejected :
    c1Run.1.state = PState.error ∧ c1Run.1.exn = true ∧ c1Run.2 = none ∧
    c1Run.1.result = none := by
  exact ⟨rfl, rfl, rfl, rfl⟩

/-- C2: the claim states `completedFields ∩ pendingFields = ∅` at every
snapshot.  The code violates it on the plain nested object `{"a": {"b": 1}}`:
when the key `"b"` is seen, `handleObjectState` adds the container path `"a"`
to `pendingPaths`; on the inner close, `endObject` computes the path after
popping (which omits the parent's pending key) and so deletes `""` instead of
`"a"`, and `assignValue` adds `"a"` to `completedPaths` without deleting it
from `pendingPaths`.  The final snapshot has `"a"` in both lists (and is even
`complete`). -/
theorem c2_paths_not_disjoint :
    ("a".toList ∈ (c2Run.2.map ParseResult.completedFields).getD []) ∧
    ("a".toList ∈ (c2Run.2.map ParseResult.pendingFields).getD []) ∧
    (c2Run.2.map ParseResult.complete).getD false = true := by
  exact ⟨by decide, by decide, rfl⟩

/-- C3: the claim states that on a container close the popped value is
validated against the schema resolved at the closed container's own path, and
that path is added to `completedPaths` — in particular when the container is
the value of a parent object's pending key.  The code computes the path with
`getCurrentPath` after popping, which excludes the parent's pending key: for
`{"a":{}}` under `{type:"object", properties:{a:{type:"number"}}}` the inner
`{}` is validated at the root path (no error) and `""` is added to
`completedPaths`, although `canBeType('object', ["a"])` is `false` and
validating `{}` at `["a"]` yields a `type` error — the behaviour the claim
requires. -/
theorem c3_close_validates_at_wrong_path :
    (c3Run.2.map (fun r => r.errors.isEmpty)).getD false = true ∧
    (([] : List Char) ∈ (c3Run.2.map ParseResult.completedFields).getD []) ∧
    canBeTypeF (mkValidator c3Schema {} rtF) 50 SchemaType.object ["a".toList] =
      some false ∧
    ((validateF (mkValidator c3Schema {} rtF) 50 (JsonValue.obj []) ["a".toList]).map
      (fun errs => errs.any (fun e => e.keyword = "type".toList))).getD false = true := by
  exact ⟨rfl, by decide, by decide, rfl⟩

/-- C4 counterexample: the claim states that exceeding `maxDepth` is fatal in
lenient mode as well — the parser transitions to Error and does not resume.
With `llmMode` and `maxDepth = 1`, feeding `{"a":{` attempts to open a second
container: `setError` does enter the Error state, but its caller immediately
overwrites the state with ExpectingKey (no throw in lenient mode), no frame is
pushed, and parsing resumes — the rest of the input drives the parser to
Complete with a (mis-shapen) root value. -/
theorem c4_llm_depth_not_fatal :
    c4Run1.1.state = PState.expectingKey ∧ c4Run1.1.stack.length = 1 ∧
    c4Run1.1.exn = false ∧
    c4Run2.1.state = PState.complete ∧
    c4Run2.1.result = some (JsonValue.obj [("b".toList, JsonValue.num 1)]) := by
  exact ⟨rfl, rfl, rfl, rfl, by with_unfolding_all rfl⟩

/-- C5 counterexample: the claim states that a lenient flag explicitly set to
`false` survives `llmMode = true` and is honoured.  The tokenizer constructor
evaluates `options.llmMode ?? options.allowSingleQuotes ?? false`, and the
parser always passes a defined `llmMode`, so the explicit
`allowSingleQuotes: false` is overridden to `true` — and behaviourally the
parser accepts single-quoted strings: `{'a': 1}` parses to completion with no
errors. -/
theorem c5_explicit_false_overridden :
    c5P.tok.opts.allowSingleQuotes = true ∧
    c5P.opts.allowSingleQuotes = false ∧
    (c5Run.2.map ParseResult.complete).getD false = true ∧
    c5Run.1.result = some (JsonValue.obj [("a".toList, JsonValue.num 1)]) ∧
    (c5Run.2.map (fun r => r.errors.isEmpty)).getD false = true := by
  exact ⟨rfl, rfl, rfl, by with_unfolding_all rfl, rfl⟩

/-- C5 amended: `llmMode = true` forces all three lenient flags of the
tokenizer to `true` regardless of any explicitly supplied values (the
nullish-coalescing chain tests `llmMode` first, and the parser always passes
it as a defined boolean). -/
theorem c5_amended_llm_overrides_all (o : ParserOptionsIn) (ho : o.llmMode = some true)
    (rt : List Char → List Char → List Char → Bool) (vfuel : Nat) :
    (mkParser o rt vfuel).tok.opts =
      { allowTrailingCommas := true, allowUnquotedKeys := true,
        allowSingleQuotes := true, llmMode := true } := by
  unfold mkParser mkTokenizer mergeOptions
  simp [mkTokOptions, ho]

/-- C5 witness. -/
theorem c5_amended_witness :
    ({ llmMode := some true, allowSingleQuotes := some false } : ParserOptionsIn).llmMode =
      some true ∧
    (mkParser { llmMode := some true, allowSingleQuotes := some false } rtF 50).tok.opts =
      { allowTrailingCommas := true, allowUnquotedKeys := true,
        allowSingleQuotes := true, llmMode := true } :=
  ⟨rfl, c5_amended_llm_overrides_all _ rfl rtF 50⟩

/-- C8 helper: in the cyclic definitions table, resolution of either named
reference diverges at every fuel. -/
theorem cyc_resolve_none (n : Nat) :
    resolveRefF (mkValidator cycSchema {} rtF) n (refSchema ("#/$defs/a".toList)) = none ∧
    resolveRefF (mkValidator cycSchema {} rtF) n (refSchema ("#/$defs/b".toList)) = none := by
  induction n with
  | zero => exact ⟨rfl, rfl⟩
  | succ n ih =>
    constructor
    · unfold resolveRefF
      rw [show refStep (mkValidator cycSchema {} rtF) (refSchema ("#/$defs/a".toList)) =
        some (refSchema ("#/$defs/b".toList)) from rfl]
      exact ih.2
    · unfold resolveRefF
      rw [show refStep (mkValidator cycSchema {} rtF) (refSchema ("#/$defs/b".toList)) =
        some (refSchema ("#/$defs/a".toList)) from rfl]
      exact ih.1

/-- C8 counterexample: the claim states `resolveRef` terminates for every
schema, including definitions that refer to one another through `$ref` chains.
With `$defs: {a: {$ref:"#/$defs/b"}, b: {$ref:"#/$defs/a"}}` and root
`{$ref:"#/$defs/a"}`, the unguarded recursion never returns: no fuel bound
suffices. -/
theorem c8_cyclic_refs_diverge :
    ¬ ResolveTerminates (mkValidator cycSchema {} rtF) cycSchema := by
  rintro ⟨n, hn⟩
  cases n with
  | zero => simp [resolveRefF] at hn
  | succ n =>
    have hstep : resolveRefF (mkValidator cycSchema {} rtF) (n + 1) cycSchema = none := by
      unfold resolveRefF
      rw [show refStep (mkValidator cycSchema {} rtF) cycSchema =
        some (refSchema ("#/$defs/b".toList)) from rfl]
      exact (cyc_resolve_none n).2
    rw [hstep] at hn
    simp at hn

/-- C10: if `getSchemaAtPath` yields no schema for a non-empty path, `validate`
returns the empty error list: values at unaddressed paths are accepted
unconditionally, for every value and every fuel budget. -/
theorem c10_unaddressed_paths_accepted (V : Validator) (fuel : Nat) (v : JsonValue)
    (p : List (List Char)) (hne : p ≠ [])
    (hnone : getSchemaAtPathF V fuel p = some none) :
    validateF V fuel v p = some [] := by
  unfold validateF
  rw [if_pos (by cases p with | nil => exact absurd rfl hne | cons a l => simp)]
  rw [hnone]

/-- C10 witness: the empty schema addresses no path, and any value at the
path `x` validates with no errors. -/
theorem c10_witness :
    (["x".toList] : List (List Char)) ≠ [] ∧
    getSchemaAtPathF (mkValidator emptySchema {} rtF) 5 ["x".toList] = some none ∧
    validateF (mkValidator emptySchema {} rtF) 5 (JsonValue.num 3) ["x".toList] = some [] := by
  refine ⟨by simp, rfl, ?_⟩
  exact c10_unaddressed_paths_accepted (mkValidator emptySchema {} rtF) 5
    (JsonValue.num 3) ["x".toList] (by simp) rfl

/-- C6 counterexample: the claim states `canBeType(t, p) = false` implies a
`type` error from validation at `p`, including when `canBeType` decided by
structural hints.  Two failures: a schema with `properties` but no `type`
keyword makes `canBeType('number')` false by the object hint, yet validating a
number yields no error at all (`validateType` only looks at the `type`
keyword); and a schema `\x7btype:["integer"]\x7d` makes `canBeType('number')`
false (exact list membership), yet an integral number passes `validateType`
through the integer special case. -/
theorem c6_canbetype_false_without_type_error :
    canBeTypeF (mkValidator hintSchema {} rtF) 50 SchemaType.number [] = some false ∧
    validateF (mkValidator hintSchema {} rtF) 50 (JsonValue.num 3) [] = some [] ∧
    canBeTypeF (mkValidator intListSchema {} rtF) 50 SchemaType.number [] = some false ∧
    validateF (mkValidator intListSchema {} rtF) 50 (JsonValue.num 3) [] = some [] ∧
    getJSONType (JsonValue.num 3) = SchemaType.number := by
  refine ⟨rfl, ?_, rfl, ?_, rfl⟩ <;> with_unfolding_all rfl

/-- C6 amended: when the schema resolved at the path (the root path included)
carries an explicit `type` keyword and the integer special case is excluded (a
`type` list containing `integer` accepts an integral number with no error
although `canBeType('number', p)` is false), `canBeType(t, p) = false` does
imply that validating a value of JSON type `t` at `p` reports a `type` error.
Without an explicit `type` keyword the implication fails: structural hints
never produce a `type` error, as the counterexample shows. -/
theorem c6_amended_explicit_type (V : Validator) (m : Nat) (v : JsonValue)
    (t : SchemaType) (pth : List (List Char)) (sub r : Schema)
    (τ : SchemaType ⊕ List SchemaType) (errs : List VError)
    (hsub : getSchemaAtPathF V m pth = some (some sub))
    (hres : resolveRefF V m sub = some r)
    (hty : r.un.type = some τ)
    (hguard : ¬(SchemaType.integer ∈ typeKeywordList τ ∧ t = SchemaType.number ∧
      isIntegerLikeV v = true))
    (hv : getJSONType v = t)
    (hcb : canBeTypeF V m t pth = some false)
    (hval : validateF V m v pth = some errs) :
    ∃ e ∈ errs, e.keyword = "type".toList := by
  obtain ⟨f, rfl⟩ : ∃ f, m = f + 1 := by
    cases m with
    | zero => simp [resolveRefF] at hres
    | succ f => exact ⟨f, rfl⟩
  unfold canBeTypeF at hcb
  rw [hsub] at hcb
  try dsimp only at hcb
  rw [hres] at hcb
  try dsimp only at hcb
  rw [hty] at hcb
  try dsimp only at hcb
  have hexists : ∀ cs : Schema,
      ∃ e ∈ validateTypeF v τ pth cs, e.keyword = "type".toList := by
    intro cs
    unfold validateTypeF
    dsimp only
    rw [hv]
    cases τ with
    | inl T =>
      have hb := Option.some.inj hcb
      rcases Bool.or_eq_false_iff.mp hb with ⟨h1, h2⟩
      split
      · rename_i hcond
        exfalso
        simp only [List.any_cons, List.any_nil, Bool.or_false, Bool.or_eq_true,
          Bool.and_eq_true, decide_eq_true_eq] at hcond
        rcases hcond with hcond | ⟨hcond, _⟩
        · exact (decide_eq_false_iff_not.mp h2) hcond
        · exact (decide_eq_false_iff_not.mp h1) hcond
      · exact ⟨_, List.mem_singleton_self _, rfl⟩
    | inr l =>
      have hb := Option.some.inj hcb
      split
      · rename_i hcond
        exfalso
        simp only [List.any_eq_true, Bool.or_eq_true, Bool.and_eq_true,
          decide_eq_true_eq] at hcond
        obtain ⟨T, hT, hg⟩ := hcond
        rcases hg with hg | ⟨⟨hTi, htn⟩, hM⟩
        · subst hg
          have hmem : l.contains T = true := List.elem_eq_true_of_mem hT
          rw [hb] at hmem
          exact Bool.noConfusion hmem
        · subst hTi
          refine hguard ⟨hT, htn, ?_⟩
          cases v with
          | num q => exact hM
          | null => exact Bool.noConfusion hM
          | bool b => exact Bool.noConfusion hM
          | str a => exact Bool.noConfusion hM
          | arr a => exact Bool.noConfusion hM
          | obj a => exact Bool.noConfusion hM
      · exact ⟨_, List.mem_singleton_self _, rfl⟩
  by_cases hp : pth = []
  · subst hp
    have hroot : resolveRefF V (f + 1) V.schema = some sub := by
      unfold getSchemaAtPathF getSchemaAtPathGo at hsub
      cases hr0 : resolveRefF V (f + 1) V.schema with
      | none =>
        rw [hr0] at hsub
        exact Option.noConfusion hsub
      | some r0 =>
        rw [hr0] at hsub
        rw [Option.some.inj (Option.some.inj hsub)]
    have hty2 : sub.un.type = some τ := by
      have hfix : refStep V sub = none := resolveRefF_fix V (f + 1) V.schema sub hroot
      have hres2 := hres
      rw [resolveRefF_of_fix V sub hfix f] at hres2
      rw [Option.some.inj hres2]
      exact hty
    unfold validateF at hval
    rw [if_neg (by simp)] at hval
    obtain ⟨tail, htail⟩ := validateValueF_type_prefix V f v [] V.schema sub errs hroot hval
    rw [hty2] at htail
    obtain ⟨e, he, hk⟩ := hexists V.schema
    rw [htail]
    exact ⟨e, List.mem_append_left _ he, hk⟩
  · unfold validateF at hval
    rw [if_pos (List.length_pos.mpr hp)] at hval
    rw [hsub] at hval
    try dsimp only at hval
    obtain ⟨tail, htail⟩ := validateValueF_type_prefix V f v pth sub r errs hres hval
    rw [hty] at htail
    obtain ⟨e, he, hk⟩ := hexists sub
    rw [htail]
    exact ⟨e, List.mem_append_left _ he, hk⟩

/-- C6 witness: under the schema `\x7btype:"object", properties:...\x7d` of
claim C3, path `a` resolves to `\x7btype:"number"\x7d`, a string at `a`
cannot be a number, and its validation reports a `type` error; and at the root
path the schema itself forbids a number, whose validation also reports a
`type` error. -/
theorem c6_amended_witness :
    canBeTypeF (mkValidator c3Schema {} rtF) 9 SchemaType.string ["a".toList] = some false ∧
    (∃ e ∈ (validateF (mkValidator c3Schema {} rtF) 9
        (JsonValue.str ("z".toList)) ["a".toList]).getD [],
      e.keyword = "type".toList) ∧
    canBeTypeF (mkValidator c3Schema {} rtF) 9 SchemaType.number [] = some false ∧
    (∃ e ∈ (validateF (mkValidator c3Schema {} rtF) 9 (JsonValue.num 3) []).getD [],
      e.keyword = "type".toList) := by
  refine ⟨rfl, ?_, rfl, ?_⟩
  · exact c6_amended_explicit_type (mkValidator c3Schema {} rtF) 9
      (JsonValue.str ("z".toList)) SchemaType.string ["a".toList] numSchema numSchema
      (Sum.inl SchemaType.number) _ rfl rfl rfl (by decide) rfl rfl rfl
  · exact c6_amended_explicit_type (mkValidator c3Schema {} rtF) 9
      (JsonValue.num 3) SchemaType.number [] c3Schema c3Schema
      (Sum.inl SchemaType.object) _ rfl rfl rfl (by decide) rfl rfl rfl

/-- C7: within one parse, `completedFields` grows monotonically: every path in
the snapshot of one `feed` call is in the snapshot of every later `feed` call
on the same parser (the parser only ever adds to `completedPaths`, and each
snapshot copies it). -/
theorem c7_completed_fields_monotone (p : Parser) (c : List Char)
    (cs : List (List Char)) (r r2 : ParseResult)
    (h1 : (pFeed p c).2 = some r)
    (h2 : some r2 ∈ (feedMany (pFeed p c).1 cs).2) :
    r.completedFields ⊆ r2.completedFields := by
  have hr := pFeed_snd_eq p c r h1
  rw [hr]
  exact feedMany_snapshot_completed cs (pFeed p c).1 r2 h2

/-- C7 witness: after `\x7b"a":1,` the path `a` is completed, and it is still
in the completed fields of the snapshot of the next feed. -/
theorem c7_witness :
    ("a".toList ∈ (buildResult c7Run1.1).completedFields) ∧
    ("a".toList ∈
      (buildResult (pFeed c7Run1.1 ("\"b\":2\x7d".toList)).1).completedFields) := by
  constructor
  · decide
  · exact c7_completed_fields_monotone (mkStrictParser none rtF 50)
      ("\x7b\"a\":1,".toList) [("\"b\":2\x7d".toList)]
      (buildResult c7Run1.1)
      (buildResult (pFeed c7Run1.1 ("\"b\":2\x7d".toList)).1)
      rfl (List.Mem.head _) (by decide)

/-- C9 counterexample: the claim states that once the parser is Complete every
later feed changes only `bytesProcessed`.  Feeding `@` to a strict parser that
has completed `\x7b\x7d` produces an Error token, which `processToken`
handles before the Complete-state ignore: the strict parser throws, moves to
the Error state and returns no snapshot. -/
theorem c9_error_token_after_complete :
    c9Run0.1.state = PState.complete ∧
    c9Run1.1.state = PState.error ∧ c9Run1.1.exn = true ∧ c9Run1.2 = none := by
  exact ⟨rfl, rfl, rfl, rfl⟩

/-- C9 amended: once Complete with an empty stack, a feed whose chunk
tokenizes with no Error token (under either expecting-key hint) leaves state,
root result, completed, pending and error lists unchanged, and the snapshot is
the previous one with only `bytesProcessed` advanced by the chunk length.  An
Error token instead throws (strict) or appends a syntax error (lenient), as
the counterexample shows. -/
theorem c9_amended_complete_frame (p : Parser) (chunk : List Char)
    (hc : p.state = PState.complete) (hst : p.stack = [])
    (ht : ∀ b : Bool, ∀ t ∈ (tokFeed (setExpectingKeyTok p.tok b) chunk).2,
      t.type ≠ TokenType.error) :
    (pFeed p chunk).1.state = PState.complete ∧
    (pFeed p chunk).1.result = p.result ∧
    (pFeed p chunk).1.completedPaths = p.completedPaths ∧
    (pFeed p chunk).1.pendingPaths = p.pendingPaths ∧
    (pFeed p chunk).1.errors = p.errors ∧
    (pFeed p chunk).2 =
      some { buildResult p with bytesProcessed := p.bytesProcessed + chunk.length } := by
  have hfold := foldl_processToken_complete
    (tokFeed (pFeedSync p chunk).tok chunk).2
    ({ pFeedSync p chunk with tok := (tokFeed (pFeedSync p chunk).tok chunk).1 })
    hc (ht _)
  unfold pFeed
  dsimp only
  rw [hfold]
  rw [show ({ pFeedSync p chunk with
      tok := (tokFeed (pFeedSync p chunk).tok chunk).1 } : Parser).exn = false from rfl]
  rw [if_neg Bool.false_ne_true]
  split
  · rw [handlePartialToken_emptyStack
      ({ pFeedSync p chunk with tok := (tokFeed (pFeedSync p chunk).tok chunk).1 }) _ hst]
    exact ⟨hc, rfl, rfl, rfl, rfl, rfl⟩
  · exact ⟨hc, rfl, rfl, rfl, rfl, rfl⟩

/-- C9 witness: feeding whitespace to the parser that completed `\x7b\x7d`
keeps the Complete state and advances only `bytesProcessed` in the snapshot. -/
theorem c9_amended_witness :
    (pFeed c9Run0.1 ("  ".toList)).1.state = PState.complete ∧
    (pFeed c9Run0.1 ("  ".toList)).2 =
      some { buildResult c9Run0.1 with
             bytesProcessed := c9Run0.1.bytesProcessed + ("  ".toList).length } := by
  constructor
  · exact (c9_amended_complete_frame c9Run0.1 ("  ".toList) rfl rfl (by decide)).1
  · exact (c9_amended_complete_frame c9Run0.1 ("  ".toList) rfl rfl (by decide)).2.2.2.2.2

/-- C4 amended: the depth bound itself holds — every snapshot of any feed
sequence from a parser within its bound reports `depth ≤ maxDepth` — and a
depth-exceeded open is fatal in strict mode: `startObject`/`startArray` move
to the Error state and throw, and a strict parser in the Error state never
leaves it nor changes its data on later feeds.  In lenient mode the error
state set by the depth check is immediately overwritten by the caller and
parsing resumes, as the counterexample shows. -/
theorem c4_amended_depth_bound_strict_fatal :
    (∀ (p : Parser) (chunks : List (List Char)) (r : ParseResult), DepthOk p →
      some r ∈ (feedMany p chunks).2 → r.depth ≤ p.opts.maxDepth) ∧
    (∀ p : Parser, p.opts.llmMode = false → p.opts.maxDepth ≤ p.stack.length →
      (startObject p).state = PState.error ∧ (startObject p).exn = true ∧
      (startArray p).state = PState.error ∧ (startArray p).exn = true) ∧
    (∀ (p : Parser) (chunk : List Char), p.state = PState.error →
      p.opts.llmMode = false →
      (pFeed p chunk).1.state = PState.error ∧
      (pFeed p chunk).1.result = p.result ∧
      (pFeed p chunk).1.completedPaths = p.completedPaths) := by
  refine ⟨?_, ?_, ?_⟩
  · exact fun p chunks r hd h => feedMany_snapshot_depth chunks p r hd h
  · intro p hllm hd
    unfold startObject startArray
    rw [if_pos hd, if_pos hd]
    exact ⟨(setError_state p _).1, setError_exn_strict p _ hllm,
      (setError_state p _).1, setError_exn_strict p _ hllm⟩
  · exact fun p chunk hs hllm => pFeed_error_strict p chunk hs hllm

/-- C4 witness: the fresh strict parser is within its depth bound and its
snapshot after `\x7b\x7d` respects it; a strict parser with `maxDepth = 0`
throws on `startObject`; the parser claim C1 left in the Error state stays
there on a further feed. -/
theorem c4_amended_witness :
    DepthOk (mkStrictParser none rtF 50) ∧
    (buildResult (pFeed (mkStrictParser none rtF 50) ("\x7b\x7d".toList)).1).depth ≤
      (mkStrictParser none rtF 50).opts.maxDepth ∧
    (startObject (mkParser { maxDepth := some 0 } rtF 50)).exn = true ∧
    (pFeed c1Run.1 ("x".toList)).1.state = PState.error := by
  refine ⟨by decide, ?_, ?_, ?_⟩
  · exact c4_amended_depth_bound_strict_fatal.1 (mkStrictParser none rtF 50)
      [("\x7b\x7d".toList)] _ (by decide) (List.Mem.head _)
  · exact (c4_amended_depth_bound_strict_fatal.2.1 (mkParser { maxDepth := some 0 } rtF 50)
      rfl (by decide)).2.1
  · exact (c4_amended_depth_bound_strict_fatal.2.2 c1Run.1 ("x".toList) rfl rfl).1

end StreamSchema
